import Mathlib

/-!
# MCUCSYA utilities: form validation

A shallow embedding of `src/utils.js` (the `MCUCSYA_CONFIG` constant declared in that file and
`MCUCSYAUtils.validate`), followed by theorems about it.

Modelling conventions.

* A JavaScript string is modelled by a Lean `String` (its sequence of code points).  The three
  patterns of the configuration classify both halves of a surrogate pair exactly like the
  code point they encode (not whitespace, not `@`, not a letter, not a digit), so acceptance
  is the same on code units and on code points.
* A record value is `undefined`, `null` or a string (the input contract of the form layer).
  A record and the `errors` object are plain objects, given by their own properties in
  insertion order; both inherit from `Object.prototype`, whose property names are read
  through the prototype chain, and an assignment to `__proto__` goes to the inherited
  setter.
* The regular-expression literals are embedded as syntax trees (`Regex`) and run by a
  derivative matcher; every pattern of the configuration is anchored by `^` and `$` and has
  no flags, so `RegExp.prototype.test` is a match of the whole string.
* `new Date()` and `new Date(string)` are supplied by a `Clock`; a JavaScript number that may
  be `NaN` is an `Option Int`.
-/

namespace MCUCSYA

/-! ## JavaScript values -/

/-- A value stored in a submitted record: absent (`undefined` or `null`) or a string. -/
inductive Value where
  | undefined
  | null
  | str (s : String)
  deriving DecidableEq, Repr

/-- JavaScript truthiness (`ToBoolean`): `undefined`, `null` and the empty string are falsy. -/
def Value.truthy : Value → Bool
  | .undefined => false
  | .null => false
  | .str s => s != ""

/-- The `ToString` conversion applied to the argument of `RegExp.prototype.test` and to the
receiver of `toString()`. -/
def Value.toJsString : Value → String
  | .undefined => "undefined"
  | .null => "null"
  | .str s => s

/-- ECMAScript WhiteSpace and LineTerminator code points: the characters removed by
`String.prototype.trim` and matched by the regular-expression class `\s`. -/
def isWhiteSpace (c : Char) : Bool :=
  c.val == 0x09 || c.val == 0x0A || c.val == 0x0B || c.val == 0x0C || c.val == 0x0D ||
  c.val == 0x20 || c.val == 0xA0 || c.val == 0x1680 ||
  (0x2000 ≤ c.val && c.val ≤ 0x200A) ||
  c.val == 0x2028 || c.val == 0x2029 || c.val == 0x202F || c.val == 0x205F ||
  c.val == 0x3000 || c.val == 0xFEFF

/-- Characters left after removing leading whitespace. -/
def trimStart (cs : List Char) : List Char := cs.dropWhile isWhiteSpace

/-- Characters left after removing trailing whitespace. -/
def trimEnd (cs : List Char) : List Char := (cs.reverse.dropWhile isWhiteSpace).reverse

/-- The method `String.prototype.trim`. -/
def jsTrim (s : String) : String := String.mk (trimEnd (trimStart s.data))

/-- The class `[a-zA-Z]`. -/
def isAsciiLetter (c : Char) : Bool :=
  ('a'.val ≤ c.val && c.val ≤ 'z'.val) || ('A'.val ≤ c.val && c.val ≤ 'Z'.val)

/-- The class `\d`, which is `[0-9]`. -/
def isAsciiDigit (c : Char) : Bool := '0'.val ≤ c.val && c.val ≤ '9'.val

/-! ## Regular expressions -/

/-- One member of a bracketed character class. -/
inductive ClassItem where
  | single (c : Char)
  | range (lo hi : Char)
  | space
  | digit

/-- Whether a character belongs to a class member. -/
def ClassItem.test : ClassItem → Char → Bool
  | .single a, c => c == a
  | .range lo hi, c => lo.val ≤ c.val && c.val ≤ hi.val
  | .space, c => isWhiteSpace c
  | .digit, c => isAsciiDigit c

/-- Syntax of the regular expressions used by the configuration.  `cls negated items` is the
class `[items]`, or `[^items]` when `negated`; `fail` matches nothing and only arises as a
derivative. -/
inductive Regex where
  | fail
  | eps
  | cls (negated : Bool) (items : List ClassItem)
  | cat (a b : Regex)
  | alt (a b : Regex)
  | star (a : Regex)

namespace Regex

/-- Membership of a character in `[items]` or `[^items]`. -/
def classTest (negated : Bool) (items : List ClassItem) (c : Char) : Bool :=
  negated != items.any (fun i => i.test c)

/-- Whether the expression matches the empty string. -/
def nullable : Regex → Bool
  | fail => false
  | eps => true
  | cls _ _ => false
  | cat a b => a.nullable && b.nullable
  | alt a b => a.nullable || b.nullable
  | star _ => true

/-- Brzozowski derivative with respect to one character. -/
def deriv (c : Char) : Regex → Regex
  | fail => fail
  | eps => fail
  | cls n items => if classTest n items c then eps else fail
  | cat a b => if a.nullable then alt (cat (a.deriv c) b) (b.deriv c) else cat (a.deriv c) b
  | alt a b => alt (a.deriv c) (b.deriv c)
  | star a => cat (a.deriv c) (star a)

/-- Match of a whole character sequence. -/
def fullMatch (r : Regex) : List Char → Bool
  | [] => r.nullable
  | c :: cs => fullMatch (r.deriv c) cs

/-- A literal character. -/
def lit (c : Char) : Regex := cls false [.single c]

/-- The quantifier `+`. -/
def plus (r : Regex) : Regex := cat r (star r)

/-- The quantifier `?`. -/
def opt (r : Regex) : Regex := alt r eps

/-- The quantifier `{n}`. -/
def rep (r : Regex) : Nat → Regex
  | 0 => eps
  | n + 1 => cat r (rep r n)

/-- At most `n` repetitions. -/
def upTo (r : Regex) : Nat → Regex
  | 0 => eps
  | n + 1 => alt eps (cat r (upTo r n))

/-- The quantifier `{lo,hi}`. -/
def repRange (r : Regex) (lo hi : Nat) : Regex := cat (rep r lo) (upTo r (hi - lo))

/-- Method `test` of a pattern written `/^...$/` without flags, on a string. -/
def test (r : Regex) (s : String) : Bool := r.fullMatch s.data

/-- Denotation of a regular expression: the character sequences it matches. -/
inductive Matches : Regex → List Char → Prop where
  | eps : Matches eps []
  | cls {n : Bool} {items : List ClassItem} {c : Char} :
      classTest n items c = true → Matches (cls n items) [c]
  | cat {a b : Regex} {s t : List Char} :
      Matches a s → Matches b t → Matches (cat a b) (s ++ t)
  | altL {a b : Regex} {s : List Char} : Matches a s → Matches (alt a b) s
  | altR {a b : Regex} {s : List Char} : Matches b s → Matches (alt a b) s
  | starNil {a : Regex} : Matches (star a) []
  | starCons {a : Regex} {s t : List Char} :
      Matches a s → Matches (star a) t → Matches (star a) (s ++ t)

end Regex

/-! ## Configuration (`MCUCSYA_CONFIG` of `src/utils.js`) -/

/-- The `validation` section of the configuration. -/
structure ValidationConfig where
  email : Regex
  phone : Regex
  name : Regex
  minAge : Int
  maxAge : Int

/-- The `messages.error` section of the configuration. -/
structure ErrorMessages where
  required : String
  invalidEmail : String
  invalidPhone : String

/-- The part of the configuration object read by the validators. -/
structure Config where
  validation : ValidationConfig
  error : ErrorMessages

/-- The pattern `/^[^\s@]+@[^\s@]+\.[^\s@]+$/`. -/
def emailPattern : Regex :=
  .cat (Regex.plus (.cls true [.space, .single '@']))
    (.cat (Regex.lit '@')
      (.cat (Regex.plus (.cls true [.space, .single '@']))
        (.cat (Regex.lit '.') (Regex.plus (.cls true [.space, .single '@'])))))

/-- The pattern `/^(\+254|0)[17]\d{8}$/`. -/
def phonePattern : Regex :=
  .cat
    (.alt (.cat (Regex.lit '+') (.cat (Regex.lit '2') (.cat (Regex.lit '5') (Regex.lit '4'))))
      (Regex.lit '0'))
    (.cat (.cls false [.single '1', .single '7']) (Regex.rep (.cls false [.digit]) 8))

/-- The pattern `/^[a-zA-Z\s]{2,50}$/`. -/
def namePattern : Regex :=
  Regex.repRange (.cls false [.range 'a' 'z', .range 'A' 'Z', .space]) 2 50

/-- The constant `MCUCSYA_CONFIG` declared at the top of `src/utils.js`. -/
def MCUCSYA_CONFIG : Config where
  validation := {
    email := emailPattern
    phone := phonePattern
    name := namePattern
    minAge := 16
    maxAge := 35 }
  error := {
    required := "This field is required"
    invalidEmail := "Please enter a valid email address"
    invalidPhone := "Please enter a valid phone number (e.g., +254712345678 or 0712345678)" }

/-! ## Dates -/

/-- Local calendar fields of a valid `Date`: `getFullYear()`, `getMonth()` (0 to 11) and
`getDate()`. -/
structure CalendarDate where
  year : Int
  month : Int
  date : Int
  deriving DecidableEq, Repr

/-- A `Date` object: `none` is the Invalid Date. -/
abbrev JSDate := Option CalendarDate

/-- A number that may be `NaN` (`none`). -/
abbrev JSNum := Option Int

/-- Method `getFullYear`. -/
def JSDate.getFullYear (d : JSDate) : JSNum := d.map (fun c => c.year)

/-- Method `getMonth`. -/
def JSDate.getMonth (d : JSDate) : JSNum := d.map (fun c => c.month)

/-- Method `getDate`. -/
def JSDate.getDate (d : JSDate) : JSNum := d.map (fun c => c.date)

/-- Subtraction; `NaN` is absorbing. -/
def JSNum.sub : JSNum → JSNum → JSNum
  | some a, some b => some (a - b)
  | _, _ => none

/-- The comparison `<`; false when either side is `NaN`. -/
def JSNum.lt : JSNum → JSNum → Bool
  | some a, some b => decide (a < b)
  | _, _ => false

/-- The comparison `<=`; false when either side is `NaN`. -/
def JSNum.le : JSNum → JSNum → Bool
  | some a, some b => decide (a ≤ b)
  | _, _ => false

/-- The comparison `>=`; false when either side is `NaN`. -/
def JSNum.ge : JSNum → JSNum → Bool
  | some a, some b => decide (b ≤ a)
  | _, _ => false

/-- The comparison `===`; false when either side is `NaN`. -/
def JSNum.strictEq : JSNum → JSNum → Bool
  | some a, some b => decide (a = b)
  | _, _ => false

/-- What the host supplies to the age check: the result of `new Date()` and the date parser
behind `new Date(string)`. -/
structure Clock where
  today : CalendarDate
  parse : String → JSDate

/-! ## Records and error maps -/

/-- A submitted record: the own properties of a plain object, in insertion order.  Values are
strings or absent: a name paired with `undefined` stands for a name the record does not
have. -/
abbrev Record := List (String × Value)

/-- The own property of the record under a name: `undefined` when it has none. -/
def Record.get : Record → String → Value
  | [], _ => .undefined
  | (k, v) :: rest, field => if k = field then v else Record.get rest field

/-- The property names of `Object.prototype`, which every plain object inherits (those of the
language standard, with its annex for browsers). -/
def objectPrototypeNames : List String :=
  ["constructor", "hasOwnProperty", "isPrototypeOf", "propertyIsEnumerable", "toLocaleString",
   "toString", "valueOf", "__proto__", "__defineGetter__", "__defineSetter__",
   "__lookupGetter__", "__lookupSetter__"]

/-- What a property read of a record yields: a value of the record (`undefined` when the name
is found nowhere), or the function or object that `Object.prototype` holds under the name. -/
inductive Read where
  | value (v : Value)
  | inherited (name : String)
  deriving DecidableEq, Repr

/-- Property read `data[field]`: the own property when the record has one, else the property
inherited from `Object.prototype` when the name is one of its names, else `undefined`. -/
def Record.read (data : Record) (field : String) : Read :=
  if data.get field != Value.undefined then .value (data.get field)
  else if field ∈ objectPrototypeNames then .inherited field
  else .value .undefined

/-- The string form of a property inherited from `Object.prototype`: `__proto__` reads as
`Object.prototype` itself, every other name as a built-in function. -/
def inheritedString (name : String) : String :=
  if name = "__proto__" then "[object Object]"
  else if name = "constructor" then "function Object() \x7b [native code] \x7d"
  else "function " ++ name ++ "() \x7b [native code] \x7d"

/-- JavaScript truthiness of the result of a property read: functions and objects are
truthy. -/
def Read.truthy : Read → Bool
  | .value v => v.truthy
  | .inherited _ => true

/-- The `ToString` conversion of the result of a property read. -/
def Read.toJsString : Read → String
  | .value v => v.toJsString
  | .inherited name => inheritedString name

/-- The `errors` object: its own properties with their messages, in insertion order. -/
abbrev Errors := List (String × String)

/-- Creation or overwrite of an own property of the `errors` object: overwrites in place or
appends. -/
def Errors.set : Errors → String → String → Errors
  | [], field, message => [(field, message)]
  | (k, m) :: rest, field, message =>
    if k = field then (k, message) :: rest else (k, m) :: Errors.set rest field message

/-- Property write `errors[field] = message`.  The name `__proto__` is an accessor of
`Object.prototype`: its setter receives the message, which is no object, and stores nothing.
Every other name gets an own property. -/
def Errors.assign (e : Errors) (field message : String) : Errors :=
  if field = "__proto__" then e else e.set field message

/-- The own property of the `errors` object under a name. -/
def Errors.get : Errors → String → Option String
  | [], _ => none
  | (k, m) :: rest, field => if k = field then some m else Errors.get rest field

/-- The function `Object.keys`. -/
def Errors.keys (e : Errors) : List String := e.map Prod.fst

/-- The object returned by `validate.formData`. -/
structure ValidationResult where
  isValid : Bool
  errors : Errors
  deriving DecidableEq, Repr

/-! ## `MCUCSYAUtils.validate` -/

namespace MCUCSYAUtils.validate

/-- Validate email address. -/
def email (cfg : Config) (email : String) : Bool :=
  cfg.validation.email.test email

/-- Validate phone number (Kenyan format). -/
def phone (cfg : Config) (phone : String) : Bool :=
  cfg.validation.phone.test phone

/-- Validate name. -/
def name (cfg : Config) (name : String) : Bool :=
  cfg.validation.name.test name

/-- Validate age. -/
def age (cfg : Config) (clock : Clock) (dateOfBirth : String) : Bool :=
  let today : JSDate := some clock.today
  let birthDate : JSDate := clock.parse dateOfBirth
  let age := JSNum.sub today.getFullYear birthDate.getFullYear
  let monthDiff := JSNum.sub today.getMonth birthDate.getMonth
  let age :=
    if JSNum.lt monthDiff (some 0) ||
        (JSNum.strictEq monthDiff (some 0) && JSNum.lt today.getDate birthDate.getDate) then
      JSNum.sub age (some 1)
    else age
  JSNum.ge age (some cfg.validation.minAge) && JSNum.le age (some cfg.validation.maxAge)

/-- Validate required field. -/
def required (value : Value) : Bool :=
  value != Value.null && value != Value.undefined && jsTrim value.toJsString != ""

/-- Validate required field, applied to the result of a property read.  A function or object
inherited from `Object.prototype` is neither `null` nor `undefined`, and its `toString()`
gives its string form. -/
def requiredRead : Read → Bool
  | .value v => required v
  | .inherited name => jsTrim (inheritedString name) != ""

/-- The message built by the template literal of the age check. -/
def ageMessage (cfg : Config) : String :=
  "Age must be between " ++ toString cfg.validation.minAge ++ " and " ++
    toString cfg.validation.maxAge ++ " years"

/-- Validate form data. -/
def formData (cfg : Config) (clock : Clock) (data : Record) (requiredFields : List String) :
    ValidationResult :=
  let errors : Errors := []
  let errors := requiredFields.foldl
    (fun errors field =>
      if !requiredRead (data.read field) then errors.assign field cfg.error.required
      else errors)
    errors
  let errors :=
    if (data.read "email").truthy && !email cfg (data.read "email").toJsString then
      errors.assign "email" cfg.error.invalidEmail
    else errors
  let errors :=
    if (data.read "phone").truthy && !phone cfg (data.read "phone").toJsString then
      errors.assign "phone" cfg.error.invalidPhone
    else errors
  let errors :=
    if (data.read "firstName").truthy && !name cfg (data.read "firstName").toJsString then
      errors.assign "firstName" "Please enter a valid first name"
    else errors
  let errors :=
    if (data.read "lastName").truthy && !name cfg (data.read "lastName").toJsString then
      errors.assign "lastName" "Please enter a valid last name"
    else errors
  let errors :=
    if (data.read "dateOfBirth").truthy &&
        !age cfg clock (data.read "dateOfBirth").toJsString then
      errors.assign "dateOfBirth" (ageMessage cfg)
    else errors
  { isValid := errors.keys.length == 0, errors := errors }

end MCUCSYAUtils.validate

/-! ## Vocabulary of the specification -/

/-- The fields that have a type-specific check in `validate.formData`. -/
def typedFields : List String := ["email", "phone", "firstName", "lastName", "dateOfBirth"]

/-- The field validator that `validate.formData` applies to a typed field. -/
def fieldValidator (cfg : Config) (clock : Clock) (field : String) (value : String) : Bool :=
  if field = "email" then MCUCSYAUtils.validate.email cfg value
  else if field = "phone" then MCUCSYAUtils.validate.phone cfg value
  else if field = "firstName" then MCUCSYAUtils.validate.name cfg value
  else if field = "lastName" then MCUCSYAUtils.validate.name cfg value
  else if field = "dateOfBirth" then MCUCSYAUtils.validate.age cfg clock value
  else true

/-- The type-specific message that `validate.formData` stores for a typed field. -/
def typeMessage (cfg : Config) (field : String) : String :=
  if field = "email" then cfg.error.invalidEmail
  else if field = "phone" then cfg.error.invalidPhone
  else if field = "firstName" then "Please enter a valid first name"
  else if field = "lastName" then "Please enter a valid last name"
  else if field = "dateOfBirth" then MCUCSYAUtils.validate.ageMessage cfg
  else ""

/-- A typed field whose value is a non-empty string rejected by its field validator. -/
def failsTypeCheck (cfg : Config) (clock : Clock) (data : Record) (field : String) : Bool :=
  decide (field ∈ typedFields) && (data.get field).truthy &&
    !fieldValidator cfg clock field (data.get field).toJsString

/-- A value that is absent (`undefined` or `null`) or blank (a string that is empty after
trimming). -/
def Value.absentOrBlank (v : Value) : Prop :=
  v = .undefined ∨ v = .null ∨ ∃ s, v = .str s ∧ jsTrim s = ""

/-- A host for the examples: today is 15 June 2024, and the date parser knows two strings
and yields the Invalid Date for every other one. -/
def sampleClock : Clock where
  today := { year := 2024, month := 5, date := 15 }
  parse := fun s =>
    if s = "2000-06-15" then some { year := 2000, month := 5, date := 15 }
    else if s = "2020-01-01" then some { year := 2020, month := 0, date := 1 }
    else none

/-- A complete registration record for the examples. -/
def sampleRecord : Record :=
  [("firstName", .str "Jane"), ("lastName", .str "Doe"), ("email", .str "a@b.com"),
   ("phone", .str "0712345678"), ("dateOfBirth", .str "2000-06-15"), ("gender", .str "female")]

/-! ## `MCUCSYAUtils.date` -/

namespace MCUCSYAUtils.date

/-- Get age from date of birth. -/
def getAge (clock : Clock) (dateOfBirth : String) : JSNum :=
  let today : JSDate := some clock.today
  let birthDate : JSDate := clock.parse dateOfBirth
  let age := JSNum.sub today.getFullYear birthDate.getFullYear
  let monthDiff := JSNum.sub today.getMonth birthDate.getMonth
  let age :=
    if JSNum.lt monthDiff (some 0) ||
        (JSNum.strictEq monthDiff (some 0) && JSNum.lt today.getDate birthDate.getDate) then
      JSNum.sub age (some 1)
    else age
  age

end MCUCSYAUtils.date

/-! ## Configuration (`MCUCSYA_CONFIG` of `src/config.js`) -/

namespace ConfigJs

/-- The pattern `/^(\+?254|0)[17]\d{8}$/`. -/
def phonePattern : Regex :=
  .cat
    (.alt
      (.cat (Regex.opt (Regex.lit '+'))
        (.cat (Regex.lit '2') (.cat (Regex.lit '5') (Regex.lit '4'))))
      (Regex.lit '0'))
    (.cat (.cls false [.single '1', .single '7']) (Regex.rep (.cls false [.digit]) 8))

/-- The constant `MCUCSYA_CONFIG` of `src/config.js` (configuration variant A): its
`validation` section and the three messages the validators read. -/
def MCUCSYA_CONFIG : Config where
  validation := {
    email := emailPattern
    phone := phonePattern
    name := namePattern
    minAge := 13
    maxAge := 35 }
  error := {
    required := "This field is required."
    invalidEmail := "Please enter a valid email address."
    invalidPhone := "Please enter a valid phone number." }

end ConfigJs

/-! ## Calendar vocabulary of the specification -/

/-- The date `a` is strictly earlier in the year than `b`: its (month, day) pair comes first. -/
def CalendarDate.monthDayBefore (a b : CalendarDate) : Prop :=
  a.month < b.month ∨ (a.month = b.month ∧ a.date < b.date)

instance (a b : CalendarDate) : Decidable (a.monthDayBefore b) := by
  unfold CalendarDate.monthDayBefore
  exact inferInstance

/-- Age in whole years as the specification words it: the difference of the years, less one
when today's (month, day) is earlier than the birth (month, day). -/
def wholeYears (today birth : CalendarDate) : Int :=
  if today.monthDayBefore birth then today.year - birth.year - 1 else today.year - birth.year

/-- Calendar order on (year, month, day). -/
def CalendarDate.notAfter (a b : CalendarDate) : Prop :=
  a.year < b.year ∨ (a.year = b.year ∧ ¬ b.monthDayBefore a)

/-- The anniversary of a date, `n` years later. -/
def CalendarDate.addYears (d : CalendarDate) (n : Int) : CalendarDate :=
  { d with year := d.year + n }

/-- Gregorian leap years. -/
def isLeapYear (year : Int) : Bool :=
  (year % 4 == 0 && year % 100 != 0) || year % 400 == 0

/-- Number of days of a month, numbered 0 to 11 as `getMonth` does. -/
def daysInMonth (year month : Int) : Int :=
  if month = 1 then (if isLeapYear year then 29 else 28)
  else if month = 3 ∨ month = 5 ∨ month = 8 ∨ month = 10 then 30
  else 31

/-- The calendar day after a date. -/
def CalendarDate.nextDay (d : CalendarDate) : CalendarDate :=
  if d.date < daysInMonth d.year d.month then { d with date := d.date + 1 }
  else if d.month < 11 then { d with month := d.month + 1, date := 1 }
  else { year := d.year + 1, month := 0, date := 1 }

/-- A host for the examples: today is 15 June 2024, and the date parser knows the day
thirteen years earlier, the day after that one, the day sixteen years earlier and the day
after that one. -/
def birthdayClock : Clock where
  today := { year := 2024, month := 5, date := 15 }
  parse := fun s =>
    if s = "2011-06-15" then some { year := 2011, month := 5, date := 15 }
    else if s = "2011-06-16" then some { year := 2011, month := 5, date := 16 }
    else if s = "2008-06-15" then some { year := 2008, month := 5, date := 15 }
    else if s = "2008-06-16" then some { year := 2008, month := 5, date := 16 }
    else none

/-! ## `MCUCSYAUtils.validate` with exceptions tracked -/

/-- An exception raised by the JavaScript runtime. -/
inductive JSError where
  | typeError (message : String)
  deriving DecidableEq, Repr

/-- The method call `value.toString()`: a `TypeError` on `undefined` and `null`, which have
no properties. -/
def Value.callToString : Value → Except JSError String
  | .undefined => .error (.typeError "Cannot read properties of undefined (reading 'toString')")
  | .null => .error (.typeError "Cannot read properties of null (reading 'toString')")
  | .str s => .ok s

/-- The method call `toString()` on the result of a property read. -/
def Read.callToString : Read → Except JSError String
  | .value v => v.callToString
  | .inherited name => .ok (inheritedString name)

namespace MCUCSYAUtils.validate.throwing

/-- Validate required field, with the short-circuit evaluation of `&&` made explicit and the
method call allowed to throw. -/
def required (value : Value) : Except JSError Bool :=
  if value != Value.null then
    if value != Value.undefined then do
      let text ← value.callToString
      pure (jsTrim text != "")
    else pure false
  else pure false

/-- Validate required field on the result of a property read, with the method call allowed
to throw. -/
def requiredRead : Read → Except JSError Bool
  | .value v => required v
  | .inherited name => do
    let text ← Read.callToString (.inherited name)
    pure (jsTrim text != "")

/-- Validate form data, with exceptions propagated as JavaScript does (there is no `try`
in the function). -/
def formData (cfg : Config) (clock : Clock) (data : Record) (requiredFields : List String) :
    Except JSError ValidationResult := do
  let errors : Errors := []
  let errors ← requiredFields.foldlM
    (fun errors field => do
      let present ← requiredRead (data.read field)
      pure (if !present then errors.assign field cfg.error.required else errors))
    errors
  let errors :=
    if (data.read "email").truthy && !email cfg (data.read "email").toJsString then
      errors.assign "email" cfg.error.invalidEmail
    else errors
  let errors :=
    if (data.read "phone").truthy && !phone cfg (data.read "phone").toJsString then
      errors.assign "phone" cfg.error.invalidPhone
    else errors
  let errors :=
    if (data.read "firstName").truthy && !name cfg (data.read "firstName").toJsString then
      errors.assign "firstName" "Please enter a valid first name"
    else errors
  let errors :=
    if (data.read "lastName").truthy && !name cfg (data.read "lastName").toJsString then
      errors.assign "lastName" "Please enter a valid last name"
    else errors
  let errors :=
    if (data.read "dateOfBirth").truthy &&
        !age cfg clock (data.read "dateOfBirth").toJsString then
      errors.assign "dateOfBirth" (ageMessage cfg)
    else errors
  pure { isValid := errors.keys.length == 0, errors := errors }

end MCUCSYAUtils.validate.throwing

/-! ## `MCUCSYAUtils.array` -/

namespace MCUCSYAUtils.array

/-- The method `Set.prototype.add`, on the members of a `Set` listed in insertion order: a
value already present (the same value under `SameValueZero`, here equality) is not added
again. -/
def setAdd {α : Type} [DecidableEq α] (members : List α) (x : α) : List α :=
  if x ∈ members then members else members ++ [x]

/-- The constructor `new Set(arr)`: the elements of the array are added one by one. -/
def newSet {α : Type} [DecidableEq α] (arr : List α) : List α :=
  arr.foldl setAdd []

/-- Remove duplicates from array: the spread of `new Set(arr)`, its members in insertion
order. -/
def unique {α : Type} [DecidableEq α] (arr : List α) : List α :=
  newSet arr

end MCUCSYAUtils.array

/-! ## `MCUCSYAUtils.storage`

The methods of `storage` are arrow functions, so `this` inside them is the `this` of the
enclosing top-level code and not the `storage` object: the global object in a classic
script, `module.exports` in a CommonJS module, `undefined` in an ES module.  A stored value
is a JSON-serialisable value taken up to structural equality, so that
`JSON.parse(JSON.stringify(value))` is `value`; the key `__proto__` is outside the model. -/

/-- The properties of a plain object that holds stored values, in insertion order. -/
abbrev Store (α : Type) := List (String × α)

/-- Own-property test `hasOwnProperty(key)` of a plain object. -/
def Store.has {α : Type} (s : Store α) (key : String) : Bool :=
  s.any (fun p => p.1 == key)

/-- Property read of a plain object. -/
def Store.read {α : Type} : Store α → String → Option α
  | [], _ => none
  | (k, v) :: rest, key => if k = key then some v else Store.read rest key

/-- Property write of a plain object. -/
def Store.write {α : Type} : Store α → String → α → Store α
  | [], key, value => [(key, value)]
  | (k, v) :: rest, key, value =>
    if k = key then (k, value) :: rest else (k, v) :: Store.write rest key value

/-- The operator `delete` on a property of a plain object. -/
def Store.delete {α : Type} (s : Store α) (key : String) : Store α :=
  s.filter (fun p => p.1 != key)

/-- The value of `this` in the top-level code of `utils.js`: `undefined`, or an object
together with its `_storage` property when it has one. -/
inductive OuterThis (α : Type) where
  | undefined
  | object (storageProperty : Option (Store α))
  deriving DecidableEq, Repr

/-- The state the storage methods can reach: the property `MCUCSYAUtils.storage._storage`
and the outer `this`. -/
structure StorageState (α : Type) where
  ownStorage : Store α
  outerThis : OuterThis α
  deriving DecidableEq, Repr

namespace MCUCSYAUtils.storage

/-- Set item in storage.  Reading `this._storage` throws when `this` is `undefined`, and
assigning to a property of `this._storage` throws when that is `undefined`; the `catch`
block returns false. -/
def set {α : Type} (state : StorageState α) (key : String) (value : α) :
    Bool × StorageState α :=
  match state.outerThis with
  | .undefined => (false, state)
  | .object none => (false, state)
  | .object (some store) =>
    (true, { state with outerThis := .object (some (store.write key value)) })

/-- Get item from storage.  The call `this._storage.hasOwnProperty(key)` throws when
`this._storage` cannot be read or is `undefined`, and when a stored item named
`hasOwnProperty` shadows the inherited method; the `catch` block returns the default. -/
def get {α : Type} (state : StorageState α) (key : String) (defaultValue : α) : α :=
  match state.outerThis with
  | .undefined => defaultValue
  | .object none => defaultValue
  | .object (some store) =>
    if store.has "hasOwnProperty" then defaultValue
    else if store.has key then (store.read key).getD defaultValue
    else defaultValue

/-- Remove item from storage. -/
def remove {α : Type} (state : StorageState α) (key : String) : Bool × StorageState α :=
  match state.outerThis with
  | .undefined => (false, state)
  | .object none => (false, state)
  | .object (some store) =>
    (true, { state with outerThis := .object (some (store.delete key)) })

/-- Clear all storage.  The assignment `this._storage = {}` throws when `this` is
`undefined` and otherwise creates or replaces the property. -/
def clear {α : Type} (state : StorageState α) : Bool × StorageState α :=
  match state.outerThis with
  | .undefined => (false, state)
  | .object _ => (true, { state with outerThis := .object (some []) })

/-- Check if storage is available. -/
def isAvailable : Bool := true

end MCUCSYAUtils.storage

/-- The state after `utils.js` is loaded as a classic script or a CommonJS module: the outer
`this` is an object (the global object, `module.exports`) without a `_storage` property. -/
def scriptState (α : Type) : StorageState α :=
  { ownStorage := [], outerThis := .object none }

/-- The state after `utils.js` is loaded as an ES module: the outer `this` is `undefined`. -/
def moduleState (α : Type) : StorageState α :=
  { ownStorage := [], outerThis := .undefined }

/-! ## `MCUCSYAUtils.array.paginate`

Page numbers, page sizes and indices are integers. -/

/-- The method `Array.prototype.slice(start, end)` on integer arguments: a negative index
counts from the end, and both indices are clamped to the array. -/
def jsSlice {α : Type} (arr : List α) (start stop : Int) : List α :=
  let len : Int := arr.length
  let k : Int := if start < 0 then max (len + start) 0 else min start len
  let final : Int := if stop < 0 then max (len + stop) 0 else min stop len
  (arr.drop k.toNat).take (final - k).toNat

/-- The expression `Math.ceil(a / b)` for integers `a` and `b` with `b` not zero, where the
quotient is a finite number. -/
def ceilDiv (a b : Int) : Int := -(Int.fdiv (-a) b)

/-- The object returned by `array.paginate`. -/
structure Page (α : Type) where
  data : List α
  totalItems : Int
  totalPages : Int
  currentPage : Int
  itemsPerPage : Int
  hasNext : Bool
  hasPrev : Bool
  deriving DecidableEq, Repr

namespace MCUCSYAUtils.array

/-- Paginate array. -/
def paginate {α : Type} (arr : List α) (page : Int) (itemsPerPage : Int) : Page α :=
  let startIndex := (page - 1) * itemsPerPage
  let endIndex := startIndex + itemsPerPage
  { data := jsSlice arr startIndex endIndex
    totalItems := arr.length
    totalPages := ceilDiv arr.length itemsPerPage
    currentPage := page
    itemsPerPage := itemsPerPage
    hasNext := decide (endIndex < arr.length)
    hasPrev := decide (page > 1) }

end MCUCSYAUtils.array

/-! ## `MCUCSYAUtils.string.slugify`

The method `toLowerCase` follows the Unicode case tables, which the repository does not
contain: it is a parameter of `slugify`.  The three `replace` calls use patterns with the
flag `g`; each is embedded by the function that performs that replacement. -/

/-- The class `[A-Z]`. -/
def isAsciiUpper (c : Char) : Bool := 'A'.val ≤ c.val && c.val ≤ 'Z'.val

/-- The class `[a-z]`. -/
def isAsciiLower (c : Char) : Bool := 'a'.val ≤ c.val && c.val ≤ 'z'.val

/-- The items of the class `\w`, which is `[A-Za-z0-9_]`. -/
def wordItems : List ClassItem := [.range 'a' 'z', .range 'A' 'Z', .digit, .single '_']

/-- Membership in the class `[^\w\s-]` of the first `replace`. -/
def isSlugJunk (c : Char) : Bool :=
  Regex.classTest true (wordItems ++ [.space, .single '-']) c

/-- Membership in the class `[\s_-]` of the second `replace`. -/
def isSlugSeparator (c : Char) : Bool :=
  Regex.classTest false [.space, .single '_', .single '-'] c

/-- The call `replace(/[...]/g, '')` for a pattern that is one character class, given by its
membership test: every character of the class is removed. -/
def removeAll (inClass : Char → Bool) (s : List Char) : List Char :=
  s.filter (fun c => !inClass c)

/-- The call `replace(/[...]+/g, replacement)` for a class given by its membership test,
scanning from left to right: each maximal run of characters of the class is replaced by one
copy of the replacement.  The flag tells that the previous character belonged to a run,
whose replacement is already written. -/
def replaceRunsFrom (inClass : Char → Bool) (replacement : List Char) :
    Bool → List Char → List Char
  | _, [] => []
  | inRun, c :: cs =>
    if inClass c then
      if inRun then replaceRunsFrom inClass replacement true cs
      else replacement ++ replaceRunsFrom inClass replacement true cs
    else c :: replaceRunsFrom inClass replacement false cs

/-- The call `replace(/[...]+/g, replacement)` on a whole string. -/
def replaceRuns (inClass : Char → Bool) (replacement : List Char) (s : List Char) :
    List Char :=
  replaceRunsFrom inClass replacement false s

/-- The call `replace(/^-+|-+$/g, '')`: the hyphens at the start and the hyphens at the end
are removed. -/
def stripHyphens (s : List Char) : List Char :=
  ((s.dropWhile (fun c => c == '-')).reverse.dropWhile (fun c => c == '-')).reverse

namespace MCUCSYAUtils.string

/-- Slugify string. -/
def slugify (toLowerCase : String → String) (str : String) : String :=
  if str = "" then ""
  else
    String.mk
      (stripHyphens
        (replaceRuns isSlugSeparator ['-']
          (removeAll isSlugJunk (jsTrim (toLowerCase str)).data)))

end MCUCSYAUtils.string

/-- A case mapping for the examples: the letters `A` to `Z` are lowered and every other
character is left as it is. -/
def asciiLowerCase (s : String) : String :=
  String.mk (s.data.map (fun c => if isAsciiUpper c then Char.ofNat (c.toNat + 32) else c))

/-- A character of a slug: a lowercase ASCII letter, a digit or a hyphen. -/
def isSlugChar (c : Char) : Bool := isAsciiLower c || isAsciiDigit c || c == '-'

/-! ## Correctness of the derivative matcher -/

namespace Regex

theorem matches_fail_iff (s : List Char) : Matches fail s ↔ False := by
  constructor
  · intro h; cases h
  · intro h; exact h.elim

theorem matches_eps_iff (s : List Char) : Matches eps s ↔ s = [] := by
  constructor
  · intro h; cases h; rfl
  · rintro rfl; exact Matches.eps

theorem matches_cls_iff (n : Bool) (items : List ClassItem) (s : List Char) :
    Matches (cls n items) s ↔ ∃ c, s = [c] ∧ classTest n items c = true := by
  constructor
  · intro h; cases h with
    | cls hc => exact ⟨_, rfl, hc⟩
  · rintro ⟨c, rfl, hc⟩; exact Matches.cls hc

theorem matches_cat_iff (a b : Regex) (s : List Char) :
    Matches (cat a b) s ↔ ∃ s₁ s₂, s = s₁ ++ s₂ ∧ Matches a s₁ ∧ Matches b s₂ := by
  constructor
  · intro h; cases h with
    | cat ha hb => exact ⟨_, _, rfl, ha, hb⟩
  · rintro ⟨s₁, s₂, rfl, ha, hb⟩; exact Matches.cat ha hb

theorem matches_alt_iff (a b : Regex) (s : List Char) :
    Matches (alt a b) s ↔ Matches a s ∨ Matches b s := by
  constructor
  · intro h; cases h with
    | altL h => exact Or.inl h
    | altR h => exact Or.inr h
  · rintro (h | h)
    · exact Matches.altL h
    · exact Matches.altR h

theorem matches_star_cons {a : Regex} {c : Char} {s : List Char}
    (h : Matches (star a) (c :: s)) :
    ∃ s₁ s₂, s = s₁ ++ s₂ ∧ Matches a (c :: s₁) ∧ Matches (star a) s₂ := by
  generalize hr : star a = r at h
  generalize hu : c :: s = u at h
  induction h generalizing s with
  | eps => cases hr
  | cls _ => cases hr
  | cat _ _ => cases hr
  | altL _ => cases hr
  | altR _ => cases hr
  | starNil => cases hu
  | @starCons a' s' t' hs ht _ ih =>
    cases hr
    cases s' with
    | nil => exact ih rfl (by simpa using hu)
    | cons d s'' =>
      simp only [List.cons_append, List.cons.injEq] at hu
      obtain ⟨rfl, rfl⟩ := hu
      exact ⟨s'', t', rfl, hs, ht⟩

theorem nullable_iff (r : Regex) : r.nullable = true ↔ Matches r [] := by
  induction r with
  | fail => simp [nullable, matches_fail_iff]
  | eps => simp [nullable, matches_eps_iff]
  | cls n items => simp [nullable, matches_cls_iff]
  | cat a b iha ihb =>
    simp only [nullable, Bool.and_eq_true, iha, ihb, matches_cat_iff]
    constructor
    · rintro ⟨ha, hb⟩; exact ⟨[], [], rfl, ha, hb⟩
    · rintro ⟨s₁, s₂, h, ha, hb⟩
      have h' := List.append_eq_nil.mp h.symm
      obtain ⟨rfl, rfl⟩ := h'
      exact ⟨ha, hb⟩
  | alt a b iha ihb => simp [nullable, iha, ihb, matches_alt_iff]
  | star a _ => simp [nullable, Matches.starNil]

theorem deriv_iff (r : Regex) (c : Char) (s : List Char) :
    Matches (r.deriv c) s ↔ Matches r (c :: s) := by
  induction r generalizing s with
  | fail => simp [deriv, matches_fail_iff]
  | eps => simp [deriv, matches_fail_iff, matches_eps_iff]
  | cls n items =>
    by_cases hc : classTest n items c = true
    · simp only [deriv, if_pos hc, matches_eps_iff, matches_cls_iff]
      constructor
      · rintro rfl; exact ⟨c, rfl, hc⟩
      · rintro ⟨d, hd, _⟩
        simp only [List.cons.injEq] at hd
        exact hd.2
    · simp only [deriv, if_neg hc, matches_fail_iff, matches_cls_iff, false_iff]
      rintro ⟨d, hd, hd'⟩
      simp only [List.cons.injEq] at hd
      exact hc (hd.1 ▸ hd')
  | cat a b iha ihb =>
    have key : Matches (cat a b) (c :: s) ↔
        (∃ s₁ s₂, s = s₁ ++ s₂ ∧ Matches a (c :: s₁) ∧ Matches b s₂) ∨
        (Matches a [] ∧ Matches b (c :: s)) := by
      rw [matches_cat_iff]
      constructor
      · rintro ⟨s₁, s₂, h, ha, hb⟩
        cases s₁ with
        | nil => right; simp only [List.nil_append] at h; exact ⟨ha, h ▸ hb⟩
        | cons d s₁ =>
          simp only [List.cons_append, List.cons.injEq] at h
          obtain ⟨rfl, rfl⟩ := h
          exact Or.inl ⟨s₁, s₂, rfl, ha, hb⟩
      · rintro (⟨s₁, s₂, rfl, ha, hb⟩ | ⟨ha, hb⟩)
        · exact ⟨c :: s₁, s₂, rfl, ha, hb⟩
        · exact ⟨[], c :: s, rfl, ha, hb⟩
    have left : Matches (cat (a.deriv c) b) s ↔
        ∃ s₁ s₂, s = s₁ ++ s₂ ∧ Matches a (c :: s₁) ∧ Matches b s₂ := by
      rw [matches_cat_iff]
      constructor
      · rintro ⟨s₁, s₂, h, ha, hb⟩; exact ⟨s₁, s₂, h, (iha s₁).mp ha, hb⟩
      · rintro ⟨s₁, s₂, h, ha, hb⟩; exact ⟨s₁, s₂, h, (iha s₁).mpr ha, hb⟩
    rw [key]
    by_cases hn : a.nullable = true
    · have h0 := (nullable_iff a).mp hn
      simp only [deriv, if_pos hn, matches_alt_iff, left, ihb, h0, true_and]
    · have h0 : ¬ Matches a [] := fun h => hn ((nullable_iff a).mpr h)
      simp only [deriv, if_neg hn, h0, false_and, or_false]
      exact left
  | alt a b iha ihb => simp [deriv, matches_alt_iff, iha, ihb]
  | star a iha =>
    simp only [deriv, matches_cat_iff]
    constructor
    · rintro ⟨s₁, s₂, rfl, ha, hs⟩
      exact Matches.starCons ((iha s₁).mp ha) hs
    · intro h
      obtain ⟨s₁, s₂, h1, h2, h3⟩ := matches_star_cons h
      exact ⟨s₁, s₂, h1, (iha s₁).mpr h2, h3⟩

theorem fullMatch_iff (r : Regex) (s : List Char) : r.fullMatch s = true ↔ Matches r s := by
  induction s generalizing r with
  | nil => simpa [fullMatch] using nullable_iff r
  | cons c cs ih => simp only [fullMatch, ih, deriv_iff]

end Regex

end MCUCSYA
namespace MCUCSYA
namespace Regex

theorem matches_lit_iff (a : Char) (s : List Char) : Matches (lit a) s ↔ s = [a] := by
  simp only [lit, matches_cls_iff, classTest, List.any_cons, List.any_nil, Bool.or_false,
    ClassItem.test]
  constructor
  · rintro ⟨c, rfl, hc⟩
    simp at hc
    rw [hc]
  · rintro rfl
    exact ⟨a, rfl, by simp⟩

theorem matches_cls_cons_iff (n : Bool) (items : List ClassItem) (c : Char) (s : List Char) :
    Matches (cls n items) (c :: s) ↔ s = [] ∧ classTest n items c = true := by
  rw [matches_cls_iff]
  constructor
  · rintro ⟨d, hd, hc⟩
    simp only [List.cons.injEq] at hd
    exact ⟨hd.2, hd.1 ▸ hc⟩
  · rintro ⟨rfl, hc⟩
    exact ⟨c, rfl, hc⟩

theorem matches_star_cls_iff (n : Bool) (items : List ClassItem) (s : List Char) :
    Matches (star (cls n items)) s ↔ ∀ c ∈ s, classTest n items c = true := by
  induction s with
  | nil => simp [Matches.starNil]
  | cons c s ih =>
    constructor
    · intro h
      obtain ⟨s₁, s₂, hs, h1, h2⟩ := matches_star_cons h
      obtain ⟨rfl, hc⟩ := (matches_cls_cons_iff n items c s₁).mp h1
      simp only [List.nil_append] at hs
      subst hs
      intro d hd
      rcases List.mem_cons.mp hd with rfl | hd
      · exact hc
      · exact ih.mp h2 d hd
    · intro h
      have hc := h c (List.mem_cons_self c s)
      have hs := ih.mpr (fun d hd => h d (List.mem_cons_of_mem c hd))
      exact Matches.starCons (Matches.cls hc) hs

theorem matches_plus_cls_iff (n : Bool) (items : List ClassItem) (s : List Char) :
    Matches (plus (cls n items)) s ↔ s ≠ [] ∧ ∀ c ∈ s, classTest n items c = true := by
  cases s with
  | nil =>
    simp only [plus, matches_cat_iff, ne_eq, not_true_eq_false, false_and, iff_false]
    rintro ⟨s₁, s₂, h, h1, _⟩
    obtain ⟨rfl, rfl⟩ := List.append_eq_nil.mp h.symm
    obtain ⟨c, hc, _⟩ := (matches_cls_iff n items []).mp h1
    cases hc
  | cons c s =>
    constructor
    · intro h
      refine ⟨List.cons_ne_nil c s, ?_⟩
      have h' : Matches (star (cls n items)) (c :: s) := by
        obtain ⟨s₁, s₂, hs, h1, h2⟩ := (matches_cat_iff _ _ _).mp h
        rw [hs]
        exact Matches.starCons h1 h2
      exact (matches_star_cls_iff n items (c :: s)).mp h'
    · rintro ⟨_, h⟩
      have hc := h c (List.mem_cons_self c s)
      have hs := (matches_star_cls_iff n items s).mpr
        (fun d hd => h d (List.mem_cons_of_mem c hd))
      exact Matches.cat (Matches.cls hc) hs

theorem matches_rep_cls_iff (n : Bool) (items : List ClassItem) (k : Nat) (s : List Char) :
    Matches (rep (cls n items) k) s ↔ s.length = k ∧ ∀ c ∈ s, classTest n items c = true := by
  induction k generalizing s with
  | zero =>
    simp only [rep, matches_eps_iff, List.length_eq_zero]
    constructor
    · rintro rfl; simp
    · exact fun h => h.1
  | succ k ih =>
    simp only [rep, matches_cat_iff]
    constructor
    · rintro ⟨s₁, s₂, rfl, h1, h2⟩
      obtain ⟨c, rfl, hc⟩ := (matches_cls_iff n items s₁).mp h1
      obtain ⟨hl, ha⟩ := (ih s₂).mp h2
      refine ⟨by simp [hl], ?_⟩
      intro d hd
      rcases List.mem_cons.mp hd with rfl | hd
      · exact hc
      · exact ha d hd
    · rintro ⟨hl, ha⟩
      cases s with
      | nil => simp at hl
      | cons c s =>
        refine ⟨[c], s, rfl, Matches.cls (ha c (List.mem_cons_self c s)), (ih s).mpr ⟨?_, ?_⟩⟩
        · simpa using hl
        · exact fun d hd => ha d (List.mem_cons_of_mem c hd)

theorem matches_upTo_cls_iff (n : Bool) (items : List ClassItem) (k : Nat) (s : List Char) :
    Matches (upTo (cls n items) k) s ↔ s.length ≤ k ∧ ∀ c ∈ s, classTest n items c = true := by
  induction k generalizing s with
  | zero =>
    simp only [upTo, matches_eps_iff, Nat.le_zero, List.length_eq_zero]
    constructor
    · rintro rfl; simp
    · exact fun h => h.1
  | succ k ih =>
    simp only [upTo, matches_alt_iff, matches_eps_iff, matches_cat_iff]
    constructor
    · rintro (rfl | ⟨s₁, s₂, rfl, h1, h2⟩)
      · simp
      · obtain ⟨c, rfl, hc⟩ := (matches_cls_iff n items s₁).mp h1
        obtain ⟨hl, ha⟩ := (ih s₂).mp h2
        refine ⟨by simp [hl], ?_⟩
        intro d hd
        rcases List.mem_cons.mp hd with rfl | hd
        · exact hc
        · exact ha d hd
    · rintro ⟨hl, ha⟩
      cases s with
      | nil => exact Or.inl rfl
      | cons c s =>
        refine Or.inr ⟨[c], s, rfl, Matches.cls (ha c (List.mem_cons_self c s)),
          (ih s).mpr ⟨?_, ?_⟩⟩
        · simpa using hl
        · exact fun d hd => ha d (List.mem_cons_of_mem c hd)

theorem matches_repRange_cls_iff (n : Bool) (items : List ClassItem) (lo hi : Nat)
    (h : lo ≤ hi) (s : List Char) :
    Matches (repRange (cls n items) lo hi) s ↔
      (lo ≤ s.length ∧ s.length ≤ hi) ∧ ∀ c ∈ s, classTest n items c = true := by
  simp only [repRange, matches_cat_iff, matches_rep_cls_iff, matches_upTo_cls_iff]
  constructor
  · rintro ⟨s₁, s₂, rfl, ⟨h1, a1⟩, ⟨h2, a2⟩⟩
    refine ⟨by simp only [List.length_append]; omega, ?_⟩
    intro c hc
    rcases List.mem_append.mp hc with hc | hc
    · exact a1 c hc
    · exact a2 c hc
  · rintro ⟨⟨h1, h2⟩, ha⟩
    refine ⟨s.take lo, s.drop lo, (List.take_append_drop lo s).symm, ⟨?_, ?_⟩, ⟨?_, ?_⟩⟩
    · simp only [List.length_take]; omega
    · exact fun c hc => ha c (List.mem_of_mem_take hc)
    · simp only [List.length_drop]; omega
    · exact fun c hc => ha c (List.mem_of_mem_drop hc)

end Regex
end MCUCSYA

namespace MCUCSYA
open Regex

/-! ## The three patterns -/

theorem emailClass_iff (c : Char) :
    classTest true [.space, .single '@'] c = true ↔ isWhiteSpace c = false ∧ c ≠ '@' := by
  simp only [classTest, List.any_cons, List.any_nil, Bool.or_false, ClassItem.test]
  cases hw : isWhiteSpace c <;> simp

theorem matches_emailPattern_iff (s : List Char) :
    Matches emailPattern s ↔
      ∃ l b e, s = l ++ '@' :: (b ++ '.' :: e) ∧ l ≠ [] ∧ b ≠ [] ∧ e ≠ [] ∧
        ∀ c ∈ l ++ (b ++ e), isWhiteSpace c = false ∧ c ≠ '@' := by
  simp only [emailPattern, matches_cat_iff, matches_plus_cls_iff, matches_lit_iff, emailClass_iff]
  constructor
  · rintro ⟨l, r₁, rfl, ⟨hl, al⟩, x, r₂, rfl, rfl, b, r₃, rfl, ⟨hb, ab⟩, y, e, rfl, rfl, he, ae⟩
    refine ⟨l, b, e, by simp, hl, hb, he, ?_⟩
    intro c hc
    simp only [List.mem_append] at hc
    rcases hc with hc | hc | hc
    · exact al c hc
    · exact ab c hc
    · exact ae c hc
  · rintro ⟨l, b, e, rfl, hl, hb, he, ha⟩
    refine ⟨l, '@' :: (b ++ '.' :: e), rfl, ⟨hl, fun c hc => ha c (by simp [hc])⟩,
      ['@'], b ++ '.' :: e, rfl, rfl, b, '.' :: e, rfl, ⟨hb, fun c hc => ha c (by simp [hc])⟩,
      ['.'], e, rfl, rfl, he, fun c hc => ha c (by simp [hc])⟩

theorem test_emailPattern_iff (s : String) :
    emailPattern.test s = true ↔
      (∀ c ∈ s.data, isWhiteSpace c = false) ∧ s.data.count '@' = 1 ∧
      ∃ l d, s.data = l ++ '@' :: d ∧ l ≠ [] ∧ ∃ b e, d = b ++ '.' :: e ∧ b ≠ [] ∧ e ≠ [] := by
  rw [Regex.test, fullMatch_iff, matches_emailPattern_iff]
  constructor
  · rintro ⟨l, b, e, hs, hl, hb, he, ha⟩
    have hcount : ∀ t : List Char, (∀ c ∈ t, c ∈ l ++ (b ++ e)) → t.count '@' = 0 := by
      intro t ht
      rw [List.count_eq_zero]
      intro hmem
      exact (ha _ (ht _ hmem)).2 rfl
    refine ⟨?_, ?_, l, b ++ '.' :: e, hs, hl, b, e, rfl, hb, he⟩
    · intro c hc
      rw [hs] at hc
      simp only [List.mem_append, List.mem_cons] at hc
      rcases hc with hc | rfl | hc | rfl | hc
      · exact (ha c (by simp [hc])).1
      · decide
      · exact (ha c (by simp [hc])).1
      · decide
      · exact (ha c (by simp [hc])).1
    · rw [hs]
      have h1 := hcount l (fun c hc => by simp [hc])
      have h2 := hcount b (fun c hc => by simp [hc])
      have h3 := hcount e (fun c hc => by simp [hc])
      simp [List.count_append, List.count_cons, h1, h2, h3]
  · rintro ⟨hw, hc, l, d, hs, hl, b, e, rfl, hb, he⟩
    refine ⟨l, b, e, hs, hl, hb, he, ?_⟩
    rw [hs] at hc
    simp only [List.count_append, List.count_cons, beq_self_eq_true, if_true] at hc
    have h1 : l.count '@' = 0 := by omega
    have h2 : b.count '@' = 0 := by omega
    have h3 : e.count '@' = 0 := by omega
    rw [List.count_eq_zero] at h1 h2 h3
    intro c hc'
    refine ⟨hw c (by rw [hs]; simp only [List.mem_append, List.mem_cons] at hc' ⊢; tauto), ?_⟩
    rintro rfl
    simp only [List.mem_append] at hc'
    tauto

end MCUCSYA

namespace MCUCSYA
open Regex

theorem nameClass_iff (c : Char) :
    classTest false [.range 'a' 'z', .range 'A' 'Z', .space] c = true ↔
      (isAsciiLetter c = true ∨ isWhiteSpace c = true) := by
  simp only [classTest, List.any_cons, List.any_nil, Bool.or_false, ClassItem.test,
    isAsciiLetter, Bool.false_bne, Bool.or_eq_true, or_assoc]

theorem test_namePattern_iff (s : String) :
    namePattern.test s = true ↔
      (2 ≤ s.length ∧ s.length ≤ 50) ∧
      ∀ c ∈ s.data, isAsciiLetter c = true ∨ isWhiteSpace c = true := by
  rw [Regex.test, fullMatch_iff, namePattern, matches_repRange_cls_iff _ _ 2 50 (by decide)]
  simp only [nameClass_iff, String.length]

theorem phoneLead_iff (c : Char) :
    classTest false [.single '1', .single '7'] c = true ↔ (c = '1' ∨ c = '7') := by
  simp [classTest, ClassItem.test]

theorem digitClass_iff (c : Char) :
    classTest false [.digit] c = true ↔ isAsciiDigit c = true := by
  simp [classTest, ClassItem.test]

theorem test_phonePattern_iff (s : String) :
    phonePattern.test s = true ↔
      ∃ pre d rest, (pre = "+254" ∨ pre = "0") ∧ (d = '1' ∨ d = '7') ∧ rest.length = 8 ∧
        (∀ c ∈ rest, isAsciiDigit c = true) ∧ s.data = pre.data ++ d :: rest := by
  rw [Regex.test, fullMatch_iff]
  simp only [phonePattern, matches_cat_iff, matches_alt_iff, matches_lit_iff, matches_cls_iff,
    matches_rep_cls_iff, phoneLead_iff, digitClass_iff]
  constructor
  · rintro ⟨p, r₁, hs, hp, x, rest, rfl, ⟨d, rfl, hd⟩, hlen, hdig⟩
    rcases hp with ⟨a, r₂, rfl, rfl, b, r₃, rfl, rfl, c, e, rfl, rfl, rfl⟩ | rfl
    · exact ⟨"+254", d, rest, Or.inl rfl, hd, hlen, hdig, hs⟩
    · exact ⟨"0", d, rest, Or.inr rfl, hd, hlen, hdig, hs⟩
  · rintro ⟨pre, d, rest, hpre, hd, hlen, hdig, hs⟩
    refine ⟨pre.data, d :: rest, hs, ?_, [d], rest, rfl, ⟨d, rfl, hd⟩, hlen, hdig⟩
    rcases hpre with rfl | rfl
    · exact Or.inl ⟨['+'], ['2', '5', '4'], rfl, rfl, ['2'], ['5', '4'], rfl, rfl,
        ['5'], ['4'], rfl, rfl, rfl⟩
    · exact Or.inr rfl

end MCUCSYA

namespace MCUCSYA

/-! ## Trimming -/

theorem string_mk_eq_empty_iff (l : List Char) : String.mk l = "" ↔ l = [] := by
  constructor
  · intro h
    have := congrArg String.data h
    simpa using this
  · rintro rfl; rfl

theorem trimStart_head_not_ws (l : List Char) (c : Char) (t : List Char)
    (h : trimStart l = c :: t) : isWhiteSpace c = false := by
  induction l with
  | nil => simp [trimStart] at h
  | cons d l ih =>
    simp only [trimStart, List.dropWhile_cons] at h
    by_cases hd : isWhiteSpace d = true
    · rw [if_pos hd] at h
      exact ih h
    · rw [if_neg hd] at h
      simp only [List.cons.injEq] at h
      rw [← h.1]
      simpa using hd

theorem trimEnd_eq_nil_iff (l : List Char) :
    trimEnd l = [] ↔ ∀ c ∈ l, isWhiteSpace c = true := by
  simp [trimEnd, List.dropWhile_eq_nil_iff]

theorem trimStart_eq_nil_iff (l : List Char) :
    trimStart l = [] ↔ ∀ c ∈ l, isWhiteSpace c = true := by
  simp [trimStart, List.dropWhile_eq_nil_iff]

theorem jsTrim_eq_empty_iff (s : String) :
    jsTrim s = "" ↔ ∀ c ∈ s.data, isWhiteSpace c = true := by
  rw [jsTrim, string_mk_eq_empty_iff, trimEnd_eq_nil_iff]
  constructor
  · intro h
    rw [← trimStart_eq_nil_iff]
    cases ht : trimStart s.data with
    | nil => rfl
    | cons c t =>
      have h1 := trimStart_head_not_ws _ _ _ ht
      have h2 := h c (by rw [ht]; exact List.mem_cons_self c t)
      rw [h1] at h2
      cases h2
  · intro h
    rw [(trimStart_eq_nil_iff s.data).mpr h]
    intro c hc
    cases hc

theorem required_eq_false_iff (value : Value) :
    MCUCSYAUtils.validate.required value = false ↔ value.absentOrBlank := by
  cases value with
  | undefined => simp [MCUCSYAUtils.validate.required, Value.absentOrBlank]
  | null => simp [MCUCSYAUtils.validate.required, Value.absentOrBlank]
  | str s =>
    simp [MCUCSYAUtils.validate.required, Value.absentOrBlank, Value.toJsString]

/-! ## The error map -/

theorem Errors.get_set (e : Errors) (k m f : String) :
    (e.set k m).get f = if k = f then some m else e.get f := by
  induction e with
  | nil => simp [Errors.set, Errors.get]
  | cons p rest ih =>
    obtain ⟨k', m'⟩ := p
    by_cases hk : k' = k
    · subst hk
      by_cases hf : k' = f <;> simp [Errors.set, Errors.get, hf]
    · by_cases hf : k' = f
      · subst hf
        have hk' : ¬ k = k' := fun h => hk h.symm
        simp [Errors.set, Errors.get, hk, hk']
      · simp [Errors.set, Errors.get, hk, hf, ih]

theorem Errors.get_ite_set (e : Errors) (b : Bool) (k m f : String) :
    (if b = true then e.set k m else e).get f =
      if b = true ∧ k = f then some m else e.get f := by
  cases b <;> simp [Errors.get_set]

theorem Errors.eq_nil_iff_get (e : Errors) : e = [] ↔ ∀ f, e.get f = none := by
  constructor
  · rintro rfl f; rfl
  · intro h
    cases e with
    | nil => rfl
    | cons p rest =>
      obtain ⟨k, m⟩ := p
      have := h k
      simp [Errors.get] at this

theorem Errors.keys_length_eq_zero_iff (e : Errors) : (e.keys.length == 0) = true ↔ e = [] := by
  simp [Errors.keys]

theorem Errors.assign_of_ne (e : Errors) (k m : String) (h : k ≠ "__proto__") :
    e.assign k m = e.set k m := by
  simp [Errors.assign, h]

theorem Errors.get_ite_assign (e : Errors) (b : Bool) (k m f : String) :
    (if b = true then e.assign k m else e).get f =
      if b = true ∧ k ≠ "__proto__" ∧ k = f then some m else e.get f := by
  by_cases hk : k = "__proto__"
  · cases b <;> simp [Errors.assign, hk]
  · cases b <;> simp [Errors.assign, hk, Errors.get_set]

theorem Record.read_of_ordinary (data : Record) (f : String)
    (h : f ∉ objectPrototypeNames) : data.read f = .value (data.get f) := by
  unfold Record.read
  by_cases hg : data.get f = .undefined
  · simp [hg, h]
  · simp [hg]

theorem Record.read_of_own (data : Record) (f : String)
    (h : data.get f ≠ .undefined) : data.read f = .value (data.get f) := by
  simp [Record.read, h]

theorem Record.read_of_inherited (data : Record) (f : String)
    (hg : data.get f = .undefined) (h : f ∈ objectPrototypeNames) :
    data.read f = .inherited f := by
  simp [Record.read, hg, h]

theorem inherited_not_blank :
    ∀ name ∈ objectPrototypeNames, (jsTrim (inheritedString name) != "") = true := by
  decide

theorem requiredRead_read_eq_false_iff (data : Record) (f : String) :
    MCUCSYAUtils.validate.requiredRead (data.read f) = false ↔
      (data.get f).absentOrBlank ∧ (f ∈ objectPrototypeNames → data.get f ≠ .undefined) := by
  by_cases hg : data.get f = .undefined
  · by_cases hp : f ∈ objectPrototypeNames
    · rw [Record.read_of_inherited data f hg hp]
      have := inherited_not_blank f hp
      simp only [MCUCSYAUtils.validate.requiredRead, this]
      constructor
      · intro h; cases h
      · rintro ⟨_, h⟩; exact absurd hg (h hp)
    · rw [Record.read_of_ordinary data f hp]
      simp only [MCUCSYAUtils.validate.requiredRead, required_eq_false_iff]
      constructor
      · intro h; exact ⟨h, fun h' => absurd h' hp⟩
      · intro h; exact h.1
  · rw [Record.read_of_own data f hg]
    simp only [MCUCSYAUtils.validate.requiredRead, required_eq_false_iff]
    constructor
    · intro h; exact ⟨h, fun _ => hg⟩
    · intro h; exact h.1

theorem requiredPass_get (cfg : Config) (data : Record) (req : List String) (init : Errors)
    (f : String) :
    (req.foldl
      (fun errors field =>
        if !MCUCSYAUtils.validate.requiredRead (data.read field) then
          errors.assign field cfg.error.required
        else errors) init).get f =
      if f ≠ "__proto__" ∧ f ∈ req ∧
          MCUCSYAUtils.validate.requiredRead (data.read f) = false then
        some cfg.error.required
      else init.get f := by
  induction req generalizing init with
  | nil => simp
  | cons g req ih =>
    rw [List.foldl_cons, ih, Errors.get_ite_assign]
    by_cases hg : g = f
    · subst hg
      by_cases hp : g = "__proto__"
      · simp [hp]
      · by_cases hr : MCUCSYAUtils.validate.requiredRead (data.read g) = false
        · simp [hr, hp]
        · simp [hr, hp]
    · have hg' : ¬ f = g := fun h => hg h.symm
      simp [hg, hg']

end MCUCSYA

namespace MCUCSYA
open MCUCSYAUtils.validate

/-! ## Characterisation of `validate.formData` -/

theorem formData_isValid (cfg : Config) (clock : Clock) (data : Record) (req : List String) :
    (formData cfg clock data req).isValid =
      ((formData cfg clock data req).errors.keys.length == 0) := rfl

theorem formData_errors_get (cfg : Config) (clock : Clock) (data : Record) (req : List String)
    (f : String) :
    (formData cfg clock data req).errors.get f =
      if failsTypeCheck cfg clock data f = true then some (typeMessage cfg f)
      else if f ≠ "__proto__" ∧ f ∈ req ∧ requiredRead (data.read f) = false then
        some cfg.error.required
      else none := by
  have r1 := Record.read_of_ordinary data "email" (by decide)
  have r2 := Record.read_of_ordinary data "phone" (by decide)
  have r3 := Record.read_of_ordinary data "firstName" (by decide)
  have r4 := Record.read_of_ordinary data "lastName" (by decide)
  have r5 := Record.read_of_ordinary data "dateOfBirth" (by decide)
  have a1 : ∀ (e : Errors) (m : String), e.assign "email" m = e.set "email" m :=
    fun e m => Errors.assign_of_ne e _ m (by decide)
  have a2 : ∀ (e : Errors) (m : String), e.assign "phone" m = e.set "phone" m :=
    fun e m => Errors.assign_of_ne e _ m (by decide)
  have a3 : ∀ (e : Errors) (m : String), e.assign "firstName" m = e.set "firstName" m :=
    fun e m => Errors.assign_of_ne e _ m (by decide)
  have a4 : ∀ (e : Errors) (m : String), e.assign "lastName" m = e.set "lastName" m :=
    fun e m => Errors.assign_of_ne e _ m (by decide)
  have a5 : ∀ (e : Errors) (m : String), e.assign "dateOfBirth" m = e.set "dateOfBirth" m :=
    fun e m => Errors.assign_of_ne e _ m (by decide)
  simp only [formData, r1, r2, r3, r4, r5, a1, a2, a3, a4, a5, Read.truthy, Read.toJsString,
    Errors.get_ite_set, requiredPass_get, Errors.get]
  by_cases h1 : f = "email"
  · subst h1
    simp [failsTypeCheck, typedFields, fieldValidator, typeMessage]
  by_cases h2 : f = "phone"
  · subst h2
    simp [failsTypeCheck, typedFields, fieldValidator, typeMessage]
  by_cases h3 : f = "firstName"
  · subst h3
    simp [failsTypeCheck, typedFields, fieldValidator, typeMessage]
  by_cases h4 : f = "lastName"
  · subst h4
    simp [failsTypeCheck, typedFields, fieldValidator, typeMessage]
  by_cases h5 : f = "dateOfBirth"
  · subst h5
    simp [failsTypeCheck, typedFields, fieldValidator, typeMessage]
  have e1 : ¬ "email" = f := fun h => h1 h.symm
  have e2 : ¬ "phone" = f := fun h => h2 h.symm
  have e3 : ¬ "firstName" = f := fun h => h3 h.symm
  have e4 : ¬ "lastName" = f := fun h => h4 h.symm
  have e5 : ¬ "dateOfBirth" = f := fun h => h5 h.symm
  simp [failsTypeCheck, typedFields, h1, h2, h3, h4, h5, e1, e2, e3, e4, e5]

end MCUCSYA

namespace MCUCSYA
open MCUCSYAUtils.validate

theorem truthy_iff (v : Value) : v.truthy = true ↔ ∃ s, v = .str s ∧ s ≠ "" := by
  cases v <;> simp [Value.truthy]

theorem failsTypeCheck_eq_false_of_not_truthy (cfg : Config) (clock : Clock) (data : Record)
    (f : String) (h : (data.get f).truthy = false) : failsTypeCheck cfg clock data f = false := by
  simp [failsTypeCheck, h]

theorem failsTypeCheck_of_fails (cfg : Config) (clock : Clock) (data : Record)
    (f s : String) (hf : f ∈ typedFields) (hs : data.get f = .str s) (hne : s ≠ "")
    (hfail : fieldValidator cfg clock f s = false) : failsTypeCheck cfg clock data f = true := by
  simp [failsTypeCheck, hf, hs, Value.truthy, Value.toJsString, hne, hfail]

theorem isValid_iff_errors_nil (cfg : Config) (clock : Clock) (data : Record)
    (req : List String) :
    (formData cfg clock data req).isValid = true ↔ (formData cfg clock data req).errors = [] := by
  rw [formData_isValid, Errors.keys_length_eq_zero_iff]

/-! ## Claims about `validate.formData` -/

/-- Claim C1. For every record and every list of required field names, the result of
`validate.formData` has `isValid = true` exactly when its `errors` object has no entries. -/
theorem formData_isValid_iff_no_errors (cfg : Config) (clock : Clock) (data : Record)
    (requiredFields : List String) :
    (formData cfg clock data requiredFields).isValid = true ↔
      (formData cfg clock data requiredFields).errors = [] :=
  isValid_iff_errors_nil cfg clock data requiredFields

/-- Claim C2, as worded, fails: `toString` is required and the empty record has no such
field, so its value is absent; yet the read `data["toString"]` yields the function inherited
from `Object.prototype`, the required check passes, and the result is valid with no
entry. -/
theorem formData_inherited_required_not_reported :
    "toString" ∈ ["toString"] ∧ (Record.get [] "toString").absentOrBlank ∧
      formData MCUCSYA_CONFIG sampleClock [] ["toString"] =
        { isValid := true, errors := [] } :=
  ⟨by decide, Or.inl (by decide), by decide⟩

/-- Claim C2, amended. If a name in `requiredFields` maps to a value that is absent or blank,
and the name is not `__proto__`, and it is either no property name of `Object.prototype` or
an own property of the record, then `validate.formData` returns `isValid = false` and
`errors` has an entry for that name. -/
theorem formData_reports_missing_required (cfg : Config) (clock : Clock) (data : Record)
    (requiredFields : List String) (field : String) (hfield : field ∈ requiredFields)
    (hvalue : (data.get field).absentOrBlank)
    (hproto : field ≠ "__proto__")
    (hown : field ∈ objectPrototypeNames → data.get field ≠ .undefined) :
    (formData cfg clock data requiredFields).isValid = false ∧
      ∃ message, (formData cfg clock data requiredFields).errors.get field = some message := by
  have hreq := (requiredRead_read_eq_false_iff data field).mpr ⟨hvalue, hown⟩
  have hget : ∃ message,
      (formData cfg clock data requiredFields).errors.get field = some message := by
    rw [formData_errors_get]
    by_cases ht : failsTypeCheck cfg clock data field = true
    · exact ⟨_, if_pos ht⟩
    · rw [if_neg ht, if_pos ⟨hproto, hfield, hreq⟩]
      exact ⟨_, rfl⟩
  refine ⟨?_, hget⟩
  cases hv : (formData cfg clock data requiredFields).isValid with
  | false => rfl
  | true =>
    obtain ⟨message, hm⟩ := hget
    rw [(isValid_iff_errors_nil cfg clock data requiredFields).mp hv] at hm
    cases hm

/-- Witness for the amended claim C2: a whitespace-only required first name. -/
theorem formData_reports_missing_required_witness :
    (formData MCUCSYA_CONFIG sampleClock [("firstName", .str "  ")] ["firstName"]).isValid
        = false ∧
      ∃ message,
        (formData MCUCSYA_CONFIG sampleClock [("firstName", .str "  ")] ["firstName"]).errors.get
          "firstName" = some message :=
  formData_reports_missing_required MCUCSYA_CONFIG sampleClock [("firstName", .str "  ")]
    ["firstName"] "firstName" (by decide) (Or.inr (Or.inr ⟨"  ", by decide, by decide⟩))
    (by decide) (by decide)

/-- Claim C3. When every required field is non-blank and each of `email`, `phone`,
`firstName`, `lastName`, `dateOfBirth` that holds a non-empty string passes its field
validator, `validate.formData` returns `isValid = true` and an empty `errors` object. -/
theorem formData_accepts_wellformed (cfg : Config) (clock : Clock) (data : Record)
    (requiredFields : List String)
    (hrequired : ∀ field ∈ requiredFields, ∃ s, data.get field = .str s ∧ jsTrim s ≠ "")
    (hemail : ∀ s, data.get "email" = .str s → s ≠ "" → email cfg s = true)
    (hphone : ∀ s, data.get "phone" = .str s → s ≠ "" → phone cfg s = true)
    (hfirst : ∀ s, data.get "firstName" = .str s → s ≠ "" → name cfg s = true)
    (hlast : ∀ s, data.get "lastName" = .str s → s ≠ "" → name cfg s = true)
    (hbirth : ∀ s, data.get "dateOfBirth" = .str s → s ≠ "" → age cfg clock s = true) :
    (formData cfg clock data requiredFields).isValid = true ∧
      (formData cfg clock data requiredFields).errors = [] := by
  have hnil : (formData cfg clock data requiredFields).errors = [] := by
    rw [Errors.eq_nil_iff_get]
    intro f
    rw [formData_errors_get]
    have ht : failsTypeCheck cfg clock data f = false := by
      cases htr : (data.get f).truthy with
      | false => exact failsTypeCheck_eq_false_of_not_truthy cfg clock data f htr
      | true =>
        obtain ⟨s, hs, hne⟩ := (truthy_iff _).mp htr
        by_cases hmem : f ∈ typedFields
        · simp only [typedFields, List.mem_cons, List.mem_singleton, List.not_mem_nil,
            or_false] at hmem
          rcases hmem with rfl | rfl | rfl | rfl | rfl
          · simp [failsTypeCheck, fieldValidator, hs, Value.toJsString, hemail s hs hne]
          · simp [failsTypeCheck, fieldValidator, hs, Value.toJsString, hphone s hs hne]
          · simp [failsTypeCheck, fieldValidator, hs, Value.toJsString, hfirst s hs hne]
          · simp [failsTypeCheck, fieldValidator, hs, Value.toJsString, hlast s hs hne]
          · simp [failsTypeCheck, fieldValidator, hs, Value.toJsString, hbirth s hs hne]
        · simp [failsTypeCheck, hmem]
    have hr : ¬ (f ≠ "__proto__" ∧ f ∈ requiredFields ∧
        requiredRead (data.read f) = false) := by
      rintro ⟨_, hf, hreq⟩
      obtain ⟨s, hs, hne⟩ := hrequired f hf
      rcases ((requiredRead_read_eq_false_iff data f).mp hreq).1 with h | h | ⟨t, h, ht'⟩
      · rw [hs] at h; cases h
      · rw [hs] at h; cases h
      · rw [hs] at h
        cases h
        exact hne ht'
    simp [ht, hr]
  exact ⟨(isValid_iff_errors_nil cfg clock data requiredFields).mpr hnil, hnil⟩

/-- Witness for claim C3: a complete record with five required fields, born 15 June 2000
and validated on 15 June 2024. -/
theorem formData_accepts_wellformed_witness :
    (formData MCUCSYA_CONFIG sampleClock sampleRecord
        ["firstName", "lastName", "email", "phone", "dateOfBirth"]).isValid = true ∧
      (formData MCUCSYA_CONFIG sampleClock sampleRecord
        ["firstName", "lastName", "email", "phone", "dateOfBirth"]).errors = [] :=
  formData_accepts_wellformed MCUCSYA_CONFIG sampleClock sampleRecord
    ["firstName", "lastName", "email", "phone", "dateOfBirth"]
    (by
      intro field hfield
      simp only [List.mem_cons, List.mem_singleton, List.not_mem_nil, or_false] at hfield
      rcases hfield with rfl | rfl | rfl | rfl | rfl
      · exact ⟨"Jane", by decide, by decide⟩
      · exact ⟨"Doe", by decide, by decide⟩
      · exact ⟨"a@b.com", by decide, by decide⟩
      · exact ⟨"0712345678", by decide, by decide⟩
      · exact ⟨"2000-06-15", by decide, by decide⟩)
    (fun s hs _ => by
      have h : s = "a@b.com" := by
        have h' : sampleRecord.get "email" = .str "a@b.com" := by decide
        rw [h'] at hs
        exact (Value.str.inj hs).symm
      subst h
      decide)
    (fun s hs _ => by
      have h : s = "0712345678" := by
        have h' : sampleRecord.get "phone" = .str "0712345678" := by decide
        rw [h'] at hs
        exact (Value.str.inj hs).symm
      subst h
      decide)
    (fun s hs _ => by
      have h : s = "Jane" := by
        have h' : sampleRecord.get "firstName" = .str "Jane" := by decide
        rw [h'] at hs
        exact (Value.str.inj hs).symm
      subst h
      decide)
    (fun s hs _ => by
      have h : s = "Doe" := by
        have h' : sampleRecord.get "lastName" = .str "Doe" := by decide
        rw [h'] at hs
        exact (Value.str.inj hs).symm
      subst h
      decide)
    (fun s hs _ => by
      have h : s = "2000-06-15" := by
        have h' : sampleRecord.get "dateOfBirth" = .str "2000-06-15" := by decide
        rw [h'] at hs
        exact (Value.str.inj hs).symm
      subst h
      decide)

end MCUCSYA

namespace MCUCSYA
open MCUCSYAUtils.validate

/-- Claim C4, as worded, fails: a required `email` holding three spaces is blank, yet its
entry carries the invalid-email message and not the required-field message. -/
theorem formData_blank_email_message_replaced :
    "email" ∈ ["email"] ∧ (Record.get [("email", .str "   ")] "email").absentOrBlank ∧
      (formData MCUCSYA_CONFIG sampleClock [("email", .str "   ")] ["email"]).errors.get "email"
        = some MCUCSYA_CONFIG.error.invalidEmail ∧
      (formData MCUCSYA_CONFIG sampleClock [("email", .str "   ")] ["email"]).errors.get "email"
        ≠ some MCUCSYA_CONFIG.error.required :=
  ⟨by decide, Or.inr (Or.inr ⟨"   ", by decide, by decide⟩), by decide, by decide⟩

/-- Claim C4, amended. Every required field whose value is absent or blank has an entry in
`errors`, provided its name is not `__proto__` and is either no property name of
`Object.prototype` or an own property of the record.  The entry is the required-field
message, unless the field is one of the five typed fields and holds a non-empty
(whitespace-only) string that its field validator rejects: then the entry is the
type-specific message.  In particular the entry is the required-field message when the value
is `undefined`, `null` or the empty string, and when the field is not a typed field. -/
theorem formData_missing_required_message (cfg : Config) (clock : Clock) (data : Record)
    (requiredFields : List String) (field : String) (hfield : field ∈ requiredFields)
    (hvalue : (data.get field).absentOrBlank)
    (hproto : field ≠ "__proto__")
    (hown : field ∈ objectPrototypeNames → data.get field ≠ .undefined) :
    (formData cfg clock data requiredFields).errors.get field =
        some (if failsTypeCheck cfg clock data field = true then typeMessage cfg field
          else cfg.error.required) ∧
      ((data.get field = .undefined ∨ data.get field = .null ∨ data.get field = .str "" ∨
          field ∉ typedFields) →
        (formData cfg clock data requiredFields).errors.get field = some cfg.error.required) := by
  have hreq := (requiredRead_read_eq_false_iff data field).mpr ⟨hvalue, hown⟩
  have hget := formData_errors_get cfg clock data requiredFields field
  constructor
  · rw [hget]
    by_cases ht : failsTypeCheck cfg clock data field = true
    · simp [ht]
    · simp [ht, hfield, hreq, hproto]
  · intro h
    have ht : failsTypeCheck cfg clock data field = false := by
      rcases h with h | h | h | h
      · exact failsTypeCheck_eq_false_of_not_truthy cfg clock data field (by rw [h]; rfl)
      · exact failsTypeCheck_eq_false_of_not_truthy cfg clock data field (by rw [h]; rfl)
      · exact failsTypeCheck_eq_false_of_not_truthy cfg clock data field (by rw [h]; decide)
      · simp [failsTypeCheck, h]
    rw [hget]
    simp [ht, hfield, hreq, hproto]

/-- Witness for the amended claim C4: an empty required first name keeps the required-field
message. -/
theorem formData_missing_required_message_witness :
    (formData MCUCSYA_CONFIG sampleClock [("firstName", .str "")] ["firstName"]).errors.get
        "firstName" = some "This field is required" :=
  (formData_missing_required_message MCUCSYA_CONFIG sampleClock [("firstName", .str "")]
    ["firstName"] "firstName" (by decide) (Or.inr (Or.inr ⟨"", by decide, by decide⟩))
    (by decide) (by decide)).2
    (Or.inr (Or.inr (Or.inl (by decide))))

/-- Claim C5. Last check wins: for each of `email`, `phone`, `firstName`, `lastName` and
`dateOfBirth`, if the record holds a non-empty string that its field validator rejects, the
entry of that field in `errors` is its type-specific message, whatever `requiredFields` is. -/
theorem formData_type_message_wins (cfg : Config) (clock : Clock) (data : Record)
    (requiredFields : List String) :
    (∀ s, data.get "email" = .str s → s ≠ "" → email cfg s = false →
      (formData cfg clock data requiredFields).errors.get "email"
        = some cfg.error.invalidEmail) ∧
    (∀ s, data.get "phone" = .str s → s ≠ "" → phone cfg s = false →
      (formData cfg clock data requiredFields).errors.get "phone"
        = some cfg.error.invalidPhone) ∧
    (∀ s, data.get "firstName" = .str s → s ≠ "" → name cfg s = false →
      (formData cfg clock data requiredFields).errors.get "firstName"
        = some "Please enter a valid first name") ∧
    (∀ s, data.get "lastName" = .str s → s ≠ "" → name cfg s = false →
      (formData cfg clock data requiredFields).errors.get "lastName"
        = some "Please enter a valid last name") ∧
    (∀ s, data.get "dateOfBirth" = .str s → s ≠ "" → age cfg clock s = false →
      (formData cfg clock data requiredFields).errors.get "dateOfBirth"
        = some ("Age must be between " ++ toString cfg.validation.minAge ++ " and " ++
            toString cfg.validation.maxAge ++ " years")) := by
  refine ⟨?_, ?_, ?_, ?_, ?_⟩ <;> intro s hs hne hfail
  · rw [formData_errors_get, if_pos (failsTypeCheck_of_fails cfg clock data "email" s
      (by decide) hs hne (by simpa [fieldValidator] using hfail))]
    rfl
  · rw [formData_errors_get, if_pos (failsTypeCheck_of_fails cfg clock data "phone" s
      (by decide) hs hne (by simpa [fieldValidator] using hfail))]
    rfl
  · rw [formData_errors_get, if_pos (failsTypeCheck_of_fails cfg clock data "firstName" s
      (by decide) hs hne (by simpa [fieldValidator] using hfail))]
    rfl
  · rw [formData_errors_get, if_pos (failsTypeCheck_of_fails cfg clock data "lastName" s
      (by decide) hs hne (by simpa [fieldValidator] using hfail))]
    rfl
  · rw [formData_errors_get, if_pos (failsTypeCheck_of_fails cfg clock data "dateOfBirth" s
      (by decide) hs hne (by simpa [fieldValidator] using hfail))]
    rfl

/-- Witness for claim C5: a required, whitespace-only `phone` gets the invalid-phone
message. -/
theorem formData_type_message_wins_witness :
    (formData MCUCSYA_CONFIG sampleClock [("phone", .str " ")] ["phone"]).errors.get "phone"
      = some "Please enter a valid phone number (e.g., +254712345678 or 0712345678)" :=
  (formData_type_message_wins MCUCSYA_CONFIG sampleClock [("phone", .str " ")]
    ["phone"]).2.1 " " (by decide) (by decide) (by decide)

/-- Claim C6, as worded, fails: the message stored for the blank first name has no final
full stop, so the result differs from the one the claim gives. -/
theorem formData_example_message_differs :
    formData MCUCSYA_CONFIG sampleClock [("firstName", .str ""), ("email", .str "x@y.com")]
        ["firstName", "email"]
      ≠ { isValid := false, errors := [("firstName", "This field is required.")] } := by
  decide

/-- Claim C6, amended. For the record with an empty `firstName` and the `email` `x@y.com`,
both required, `validate.formData` returns `isValid = false` and `errors` with the single
entry `firstName`, whose message is `This field is required` (the text of `utils.js`, without
a final full stop); and in general the entry of a field depends only on that field's own
value, so a failure on one field adds no entry for another. -/
theorem formData_example_and_independence :
    (∀ clock : Clock,
      formData MCUCSYA_CONFIG clock [("firstName", .str ""), ("email", .str "x@y.com")]
          ["firstName", "email"]
        = { isValid := false, errors := [("firstName", "This field is required")] }) ∧
    (∀ (cfg : Config) (clock : Clock) (data other : Record) (requiredFields : List String)
        (field : String), data.get field = other.get field →
      (formData cfg clock data requiredFields).errors.get field =
        (formData cfg clock other requiredFields).errors.get field) := by
  constructor
  · intro clock
    rfl
  · intro cfg clock data other requiredFields field h
    simp only [formData_errors_get, failsTypeCheck, Record.read, h]

/-- Witness for the amended claim C6: the `email` entry is the same (absent) whether or not
the first name fails. -/
theorem formData_example_and_independence_witness :
    (formData MCUCSYA_CONFIG sampleClock [("firstName", .str ""), ("email", .str "x@y.com")]
        ["firstName", "email"]).errors.get "email" =
      (formData MCUCSYA_CONFIG sampleClock [("firstName", .str "Jane"), ("email", .str "x@y.com")]
        ["firstName", "email"]).errors.get "email" :=
  formData_example_and_independence.2 MCUCSYA_CONFIG sampleClock
    [("firstName", .str ""), ("email", .str "x@y.com")]
    [("firstName", .str "Jane"), ("email", .str "x@y.com")] ["firstName", "email"] "email"
    (by decide)

end MCUCSYA

namespace MCUCSYA
open MCUCSYAUtils.validate

/-! ## Claims about the field validators -/

/-- Claim C7. `validate.email` accepts a string exactly when it contains no whitespace,
contains exactly one `@` with a non-empty part before it, and the part after the `@` contains
a `.` with at least one character before it and at least one after it; the empty string and
`not-an-email` are rejected and `a@b.com` is accepted. -/
theorem email_accepts_iff :
    (∀ s : String, email MCUCSYA_CONFIG s = true ↔
      (∀ c ∈ s.data, isWhiteSpace c = false) ∧ s.data.count '@' = 1 ∧
      ∃ localPart domain, s.data = localPart ++ '@' :: domain ∧ localPart ≠ [] ∧
        ∃ before after, domain = before ++ '.' :: after ∧ before ≠ [] ∧ after ≠ []) ∧
    email MCUCSYA_CONFIG "" = false ∧
    email MCUCSYA_CONFIG "not-an-email" = false ∧
    email MCUCSYA_CONFIG "a@b.com" = true :=
  ⟨fun s => test_emailPattern_iff s, by decide, by decide, by decide⟩

/-- Claim C8, as worded, fails: `712345678` is a digit 7 followed by exactly 8 digits, with
the leading `+254` or `0` left out, and `validate.phone` rejects it. -/
theorem phone_rejects_missing_lead :
    (∃ pre d rest, (pre = "" ∨ pre = "+254" ∨ pre = "0") ∧ (d = '1' ∨ d = '7') ∧
        rest.length = 8 ∧ (∀ c ∈ rest, isAsciiDigit c = true) ∧
        "712345678".data = pre.data ++ d :: rest) ∧
      phone MCUCSYA_CONFIG "712345678" = false :=
  ⟨⟨"", '7', "12345678".data, by decide, by decide, by decide, by decide, by decide⟩,
    by decide⟩

/-- Claim C8, amended. `validate.phone` accepts a string exactly when it consists of a
leading `+254` or `0` (one of the two is required), then one digit that is 1 or 7, then
exactly 8 further digits, and nothing else; `+254712345678` and `0712345678` are accepted and
`12345` is rejected. -/
theorem phone_accepts_iff :
    (∀ s : String, phone MCUCSYA_CONFIG s = true ↔
      ∃ pre d rest, (pre = "+254" ∨ pre = "0") ∧ (d = '1' ∨ d = '7') ∧ rest.length = 8 ∧
        (∀ c ∈ rest, isAsciiDigit c = true) ∧ s.data = pre.data ++ d :: rest) ∧
    phone MCUCSYA_CONFIG "+254712345678" = true ∧
    phone MCUCSYA_CONFIG "0712345678" = true ∧
    phone MCUCSYA_CONFIG "12345" = false :=
  ⟨fun s => test_phonePattern_iff s, by decide, by decide, by decide⟩

/-- Claim C9, as worded, fails: `validate.name` accepts a three-character string whose middle
character is a tab, which is neither an ASCII letter nor the space character. -/
theorem name_accepts_tab :
    name MCUCSYA_CONFIG "A\tB" = true ∧
      ¬ ((2 ≤ "A\tB".length ∧ "A\tB".length ≤ 50) ∧
        ∀ c ∈ "A\tB".data, isAsciiLetter c = true ∨ c = ' ') := by
  refine ⟨by decide, ?_⟩
  rintro ⟨_, h⟩
  have := h '\t' (by decide)
  revert this
  decide

/-- Claim C9, amended. `validate.name` accepts a string exactly when its length is between 2
and 50 inclusive and every character is an ASCII letter or a whitespace character of the
class `\s` (the space, but also tab, line breaks and the other Unicode spaces); `Jane Doe` is
accepted, `J3ane` and `A` are rejected. -/
theorem name_accepts_iff :
    (∀ s : String, name MCUCSYA_CONFIG s = true ↔
      (2 ≤ s.length ∧ s.length ≤ 50) ∧
        ∀ c ∈ s.data, isAsciiLetter c = true ∨ isWhiteSpace c = true) ∧
    name MCUCSYA_CONFIG "Jane Doe" = true ∧
    name MCUCSYA_CONFIG "J3ane" = false ∧
    name MCUCSYA_CONFIG "A" = false :=
  ⟨fun s => test_namePattern_iff s, by decide, by decide, by decide⟩

/-- Claim C10. `validate.required` returns false exactly when the value is `null` or
`undefined` or its string form is empty after trimming, which for a string means that every
character of it is whitespace; for every other value it returns true. -/
theorem required_false_iff_absent_or_blank :
    (∀ value : Value, required value = false ↔
      (value = .null ∨ value = .undefined ∨ jsTrim value.toJsString = "")) ∧
    (∀ value : Value,
      ¬ (value = .null ∨ value = .undefined ∨ jsTrim value.toJsString = "") →
        required value = true) ∧
    (∀ s : String, required (.str s) = false ↔ ∀ c ∈ s.data, isWhiteSpace c = true) := by
  have key : ∀ value : Value, required value = false ↔
      (value = .null ∨ value = .undefined ∨ jsTrim value.toJsString = "") := by
    intro value
    cases value with
    | undefined => simp [required]
    | null => simp [required]
    | str s => simp [required, Value.toJsString]
  refine ⟨key, ?_, ?_⟩
  · intro value h
    cases hr : required value with
    | true => rfl
    | false => exact absurd ((key value).mp hr) h
  · intro s
    rw [key, ← jsTrim_eq_empty_iff]
    simp [Value.toJsString]

/-- Witness for claim C10: a non-empty name is neither absent nor blank. -/
theorem required_false_iff_absent_or_blank_witness : required (.str "Jane") = true :=
  required_false_iff_absent_or_blank.2.1 (.str "Jane") (by decide)

end MCUCSYA

namespace MCUCSYA
open MCUCSYAUtils.validate

/-! ## The age check -/

theorem getAge_of_parse (clock : Clock) (dateOfBirth : String) (birth : CalendarDate)
    (hparse : clock.parse dateOfBirth = some birth) :
    MCUCSYAUtils.date.getAge clock dateOfBirth = some (wholeYears clock.today birth) := by
  simp only [MCUCSYAUtils.date.getAge, hparse, JSDate.getFullYear, JSDate.getMonth,
    JSDate.getDate, Option.map_some', JSNum.sub, JSNum.lt, JSNum.strictEq, wholeYears,
    CalendarDate.monthDayBefore]
  by_cases h1 : clock.today.month < birth.month
  · have : clock.today.month - birth.month < 0 := by omega
    simp [h1, this, JSNum.sub]
  · by_cases h2 : clock.today.month = birth.month
    · by_cases h3 : clock.today.date < birth.date
      · simp [h2, h3, JSNum.sub]
      · simp [h2, h3]
    · have n1 : ¬ clock.today.month - birth.month < 0 := by omega
      have n2 : ¬ clock.today.month - birth.month = 0 := by omega
      simp [h1, h2, n1, n2]

theorem age_eq_getAge_in_range (cfg : Config) (clock : Clock) (dateOfBirth : String) :
    age cfg clock dateOfBirth =
      (JSNum.ge (MCUCSYAUtils.date.getAge clock dateOfBirth) (some cfg.validation.minAge) &&
        JSNum.le (MCUCSYAUtils.date.getAge clock dateOfBirth) (some cfg.validation.maxAge)) :=
  rfl

theorem age_of_parse (cfg : Config) (clock : Clock) (dateOfBirth : String)
    (birth : CalendarDate) (hparse : clock.parse dateOfBirth = some birth) :
    age cfg clock dateOfBirth = true ↔
      cfg.validation.minAge ≤ wholeYears clock.today birth ∧
        wholeYears clock.today birth ≤ cfg.validation.maxAge := by
  rw [age_eq_getAge_in_range, getAge_of_parse clock dateOfBirth birth hparse]
  simp [JSNum.ge, JSNum.le]

theorem age_of_invalid (cfg : Config) (clock : Clock) (dateOfBirth : String)
    (hparse : clock.parse dateOfBirth = none) : age cfg clock dateOfBirth = false := by
  simp [age, hparse, JSDate.getFullYear, JSDate.getMonth, JSDate.getDate, JSNum.sub, JSNum.lt,
    JSNum.strictEq, JSNum.ge]

theorem wholeYears_anniversary (today birth : CalendarDate) :
    (birth.addYears (wholeYears today birth)).notAfter today ∧
      ¬ (birth.addYears (wholeYears today birth + 1)).notAfter today := by
  unfold wholeYears
  by_cases h : today.monthDayBefore birth
  · rw [if_pos h]
    simp only [CalendarDate.notAfter, CalendarDate.addYears, CalendarDate.monthDayBefore] at h ⊢
    constructor
    · left; omega
    · omega
  · rw [if_neg h]
    simp only [CalendarDate.notAfter, CalendarDate.addYears, CalendarDate.monthDayBefore] at h ⊢
    constructor
    · right; omega
    · omega

/-- Claim C11. For every date of birth that parses to a valid date and every current date,
`validate.age` returns true exactly when `minAge <= age <= maxAge`, both bounds inclusive,
where `age` is the difference of the years less one when today's (month, day) is earlier
than the birth (month, day).  That number is what `date.getAge` returns, and it is the
number of whole years elapsed: the anniversary after that many years is not after today and
the next anniversary is. -/
theorem age_iff_wholeYears_in_range (cfg : Config) (clock : Clock) (dateOfBirth : String)
    (birth : CalendarDate) (hparse : clock.parse dateOfBirth = some birth) :
    (age cfg clock dateOfBirth = true ↔
      cfg.validation.minAge ≤ wholeYears clock.today birth ∧
        wholeYears clock.today birth ≤ cfg.validation.maxAge) ∧
    MCUCSYAUtils.date.getAge clock dateOfBirth = some (wholeYears clock.today birth) ∧
    (birth.addYears (wholeYears clock.today birth)).notAfter clock.today ∧
    ¬ (birth.addYears (wholeYears clock.today birth + 1)).notAfter clock.today :=
  ⟨age_of_parse cfg clock dateOfBirth birth hparse, getAge_of_parse clock dateOfBirth birth hparse,
    wholeYears_anniversary clock.today birth⟩

/-- Witness for claim C11: born 15 June 2000, checked on 15 June 2024. -/
theorem age_iff_wholeYears_in_range_witness :
    (age MCUCSYA_CONFIG sampleClock "2000-06-15" = true ↔
      (16 : Int) ≤ wholeYears sampleClock.today ⟨2000, 5, 15⟩ ∧
        wholeYears sampleClock.today ⟨2000, 5, 15⟩ ≤ 35) ∧
    MCUCSYAUtils.date.getAge sampleClock "2000-06-15" = some 24 :=
  ⟨(age_iff_wholeYears_in_range MCUCSYA_CONFIG sampleClock "2000-06-15" ⟨2000, 5, 15⟩
      (by decide)).1,
    (age_iff_wholeYears_in_range MCUCSYA_CONFIG sampleClock "2000-06-15" ⟨2000, 5, 15⟩
      (by decide)).2.1⟩

end MCUCSYA

namespace MCUCSYA
open MCUCSYAUtils.validate

theorem wholeYears_same_day (today : CalendarDate) (n : Int) :
    wholeYears today { year := today.year - n, month := today.month, date := today.date } = n := by
  simp [wholeYears, CalendarDate.monthDayBefore]

theorem wholeYears_day_after (today : CalendarDate) (n : Int) :
    wholeYears today
      (CalendarDate.nextDay
        { year := today.year - n, month := today.month, date := today.date }) < n := by
  unfold CalendarDate.nextDay
  simp only
  split
  · simp [wholeYears, CalendarDate.monthDayBefore]
  · split
    · simp [wholeYears, CalendarDate.monthDayBefore]
    · simp only [wholeYears, CalendarDate.monthDayBefore]
      split <;> omega

theorem age_birthday_boundary (cfg : Config) (clock : Clock) (onBirthday dayShort : String)
    (hrange : cfg.validation.minAge ≤ cfg.validation.maxAge)
    (hon : clock.parse onBirthday =
      some { year := clock.today.year - cfg.validation.minAge, month := clock.today.month,
             date := clock.today.date })
    (hshort : clock.parse dayShort =
      some (CalendarDate.nextDay
        { year := clock.today.year - cfg.validation.minAge, month := clock.today.month,
          date := clock.today.date })) :
    age cfg clock onBirthday = true ∧ age cfg clock dayShort = false := by
  constructor
  · rw [age_of_parse cfg clock onBirthday _ hon, wholeYears_same_day]
    exact ⟨le_refl _, hrange⟩
  · cases h : age cfg clock dayShort with
    | false => rfl
    | true =>
      have h1 := ((age_of_parse cfg clock dayShort _ hshort).mp h).1
      have h2 := wholeYears_day_after clock.today cfg.validation.minAge
      omega

/-- Claim C12, as worded, fails: `validate.age` reads the `MCUCSYA_CONFIG` of `utils.js`,
whose `minAge` is 16, so on 15 June 2024 a date of birth exactly 13 years before today is
rejected. -/
theorem age_rejects_thirteenth_birthday :
    birthdayClock.parse "2011-06-15" =
        some { year := birthdayClock.today.year - 13, month := birthdayClock.today.month,
               date := birthdayClock.today.date } ∧
      age MCUCSYA_CONFIG birthdayClock "2011-06-15" = false := by
  decide

/-- Claim C12, amended. With the `minAge = 16` of the `MCUCSYA_CONFIG` that `validate.age`
reads, for every current date: a date of birth with today's month and day and the year
sixteen years back passes `validate.age`, the date of birth one calendar day later than that
fails it, and a date of birth with today's month and day and the year thirteen years back
fails it. -/
theorem age_sixteenth_birthday_boundary (clock : Clock) (onBirthday dayShort : String)
    (hon : clock.parse onBirthday =
      some { year := clock.today.year - 16, month := clock.today.month,
             date := clock.today.date })
    (hshort : clock.parse dayShort =
      some (CalendarDate.nextDay
        { year := clock.today.year - 16, month := clock.today.month,
          date := clock.today.date })) :
    age MCUCSYA_CONFIG clock onBirthday = true ∧
    age MCUCSYA_CONFIG clock dayShort = false ∧
    (∀ thirteen : String,
      clock.parse thirteen =
        some { year := clock.today.year - 13, month := clock.today.month,
               date := clock.today.date } →
      age MCUCSYA_CONFIG clock thirteen = false) := by
  have h := age_birthday_boundary MCUCSYA_CONFIG clock onBirthday dayShort (by decide) hon
    hshort
  refine ⟨h.1, h.2, ?_⟩
  intro thirteen hparse
  cases ha : age MCUCSYA_CONFIG clock thirteen with
  | false => rfl
  | true =>
    have h1 := ((age_of_parse MCUCSYA_CONFIG clock thirteen _ hparse).mp ha).1
    rw [wholeYears_same_day] at h1
    revert h1
    decide

/-- Witness for the amended claim C12: on 15 June 2024 a birth on 15 June 2008 passes and a
birth on 16 June 2008 fails. -/
theorem age_sixteenth_birthday_boundary_witness :
    age MCUCSYA_CONFIG birthdayClock "2008-06-15" = true ∧
      age MCUCSYA_CONFIG birthdayClock "2008-06-16" = false :=
  ⟨(age_sixteenth_birthday_boundary birthdayClock "2008-06-15" "2008-06-16" (by decide)
      (by decide)).1,
    (age_sixteenth_birthday_boundary birthdayClock "2008-06-15" "2008-06-16" (by decide)
      (by decide)).2.1⟩

end MCUCSYA

namespace MCUCSYA
open MCUCSYAUtils.validate

theorem age_utils_boundary_sixteen :
    age MCUCSYA_CONFIG birthdayClock "2011-06-15" = false ∧
      age MCUCSYA_CONFIG birthdayClock "2008-06-15" = true := by
  decide

theorem isValid_false_of_get (cfg : Config) (clock : Clock) (data : Record)
    (req : List String) (f m : String)
    (h : (formData cfg clock data req).errors.get f = some m) :
    (formData cfg clock data req).isValid = false := by
  cases hv : (formData cfg clock data req).isValid with
  | false => rfl
  | true =>
    rw [(isValid_iff_errors_nil cfg clock data req).mp hv] at h
    cases h

theorem dateOfBirth_message_of_fails (cfg : Config) (clock : Clock) (data : Record)
    (req : List String) (s : String) (hs : data.get "dateOfBirth" = .str s) (hne : s ≠ "")
    (hfail : age cfg clock s = false) :
    (formData cfg clock data req).errors.get "dateOfBirth" = some (ageMessage cfg) := by
  rw [formData_errors_get, if_pos (failsTypeCheck_of_fails cfg clock data "dateOfBirth" s
    (by decide) hs hne (by simpa [fieldValidator] using hfail))]
  rfl

/-- Claim C13. For every non-empty `dateOfBirth` string that does not parse to a date,
`validate.age` returns false, and `validate.formData` reports `errors.dateOfBirth` with the
age-range message `Age must be between <minAge> and <maxAge> years` and `isValid = false`;
that entry is the same as the one stored for a date that parses but is out of range. -/
theorem formData_unparseable_dateOfBirth (cfg : Config) (clock : Clock) (data : Record)
    (requiredFields : List String) (s : String)
    (hs : data.get "dateOfBirth" = .str s) (hne : s ≠ "") (hparse : clock.parse s = none) :
    age cfg clock s = false ∧
    (formData cfg clock data requiredFields).errors.get "dateOfBirth" =
      some ("Age must be between " ++ toString cfg.validation.minAge ++ " and " ++
        toString cfg.validation.maxAge ++ " years") ∧
    (formData cfg clock data requiredFields).isValid = false ∧
    (∀ (other : Record) (t : String) (birth : CalendarDate),
      other.get "dateOfBirth" = .str t → t ≠ "" → clock.parse t = some birth →
      age cfg clock t = false →
      (formData cfg clock other requiredFields).errors.get "dateOfBirth" =
        (formData cfg clock data requiredFields).errors.get "dateOfBirth") := by
  have hfail := age_of_invalid cfg clock s hparse
  have hmsg := dateOfBirth_message_of_fails cfg clock data requiredFields s hs hne hfail
  refine ⟨hfail, hmsg, isValid_false_of_get cfg clock data requiredFields _ _ hmsg, ?_⟩
  intro other t birth ht htne _ htfail
  rw [hmsg, dateOfBirth_message_of_fails cfg clock other requiredFields t ht htne htfail]

/-- Witness for claim C13: the text `tomorrow` is no date for the sample host, and the entry
it gets is the one a birth on 1 January 2020 (age 4) gets. -/
theorem formData_unparseable_dateOfBirth_witness :
    (formData MCUCSYA_CONFIG sampleClock [("dateOfBirth", .str "tomorrow")] []).errors.get
        "dateOfBirth" = some "Age must be between 16 and 35 years" ∧
    (formData MCUCSYA_CONFIG sampleClock [("dateOfBirth", .str "2020-01-01")] []).errors.get
        "dateOfBirth" =
      (formData MCUCSYA_CONFIG sampleClock [("dateOfBirth", .str "tomorrow")] []).errors.get
        "dateOfBirth" :=
  ⟨(formData_unparseable_dateOfBirth MCUCSYA_CONFIG sampleClock
      [("dateOfBirth", .str "tomorrow")] [] "tomorrow" (by decide) (by decide) (by decide)).2.1,
    (formData_unparseable_dateOfBirth MCUCSYA_CONFIG sampleClock
      [("dateOfBirth", .str "tomorrow")] [] "tomorrow" (by decide) (by decide)
      (by decide)).2.2.2 [("dateOfBirth", .str "2020-01-01")] "2020-01-01" ⟨2020, 0, 1⟩
      (by decide) (by decide) (by decide) (by decide)⟩

end MCUCSYA

namespace MCUCSYA
open MCUCSYAUtils.validate

/-! ## Absence of exceptions -/

theorem throwing_required_eq (value : Value) :
    throwing.required value = Except.ok (required value) := by
  cases value with
  | undefined => rfl
  | null => rfl
  | str s => rfl

theorem throwing_requiredRead_eq (r : Read) :
    throwing.requiredRead r = Except.ok (requiredRead r) := by
  cases r with
  | value v => exact throwing_required_eq v
  | inherited name => rfl

theorem throwing_requiredPass_eq (cfg : Config) (data : Record) (req : List String)
    (init : Errors) :
    req.foldlM
      (fun errors field => do
        let present ← throwing.requiredRead (data.read field)
        pure (if !present then errors.assign field cfg.error.required else errors))
      init =
    Except.ok (req.foldl
      (fun errors field =>
        if !requiredRead (data.read field) then errors.assign field cfg.error.required
        else errors)
      init) := by
  induction req generalizing init with
  | nil => rfl
  | cons f req ih =>
    rw [List.foldlM_cons, throwing_requiredRead_eq, List.foldl_cons]
    exact ih _

/-- Claim C14. `validate.formData` never throws: for every record of string or absent
values and every list of required names (names missing from the record and malformed values
included), the evaluation that tracks exceptions ends normally, with the structured result
`{isValid, errors}` computed by `validate.formData`. -/
theorem formData_never_throws (cfg : Config) (clock : Clock) (data : Record)
    (requiredFields : List String) :
    throwing.formData cfg clock data requiredFields =
      Except.ok (formData cfg clock data requiredFields) := by
  simp only [throwing.formData, throwing_requiredPass_eq]
  rfl

end MCUCSYA

namespace MCUCSYA
open MCUCSYAUtils.validate Regex

/-! ## The phone patterns -/

theorem digit_not_whiteSpace (c : Char) (h : isAsciiDigit c = true) : isWhiteSpace c = false := by
  simp only [isAsciiDigit, Bool.and_eq_true, decide_eq_true_eq] at h
  obtain ⟨h1, h2⟩ := h
  have h1' : 48 ≤ c.val.toNat := h1
  have h2' : c.val.toNat ≤ 57 := h2
  have ne : ∀ k : UInt32, (k.toNat < 48 ∨ 57 < k.toNat) → (c.val == k) = false := by
    intro k hk
    rw [beq_eq_false_iff_ne]
    intro hck
    rw [hck] at h1' h2'
    omega
  have hr : (decide (0x2000 ≤ c.val) && decide (c.val ≤ 0x200A)) = false := by
    have : ¬ (0x2000 : UInt32) ≤ c.val := by
      intro hle
      have hle' : (0x2000 : UInt32).toNat ≤ c.val.toNat := hle
      have : (0x2000 : UInt32).toNat = 8192 := by decide
      omega
    simp [this]
  simp only [isWhiteSpace, hr, Bool.or_false, Bool.false_or,
    ne 0x09 (by decide), ne 0x0A (by decide), ne 0x0B (by decide), ne 0x0C (by decide),
    ne 0x0D (by decide), ne 0x20 (by decide), ne 0xA0 (by decide), ne 0x1680 (by decide),
    ne 0x2028 (by decide), ne 0x2029 (by decide), ne 0x202F (by decide), ne 0x205F (by decide),
    ne 0x3000 (by decide), ne 0xFEFF (by decide)]

theorem phone_no_whiteSpace (s : String) (h : phone MCUCSYA_CONFIG s = true) :
    ∀ c ∈ s.data, isWhiteSpace c = false := by
  obtain ⟨pre, d, rest, hpre, hd, _, hdig, hs⟩ := (test_phonePattern_iff s).mp h
  intro c hc
  rw [hs] at hc
  simp only [List.mem_append, List.mem_cons] at hc
  rcases hc with hc | rfl | hc
  · rcases hpre with rfl | rfl
    · have : c = '+' ∨ c = '2' ∨ c = '5' ∨ c = '4' := by simpa using hc
      rcases this with rfl | rfl | rfl | rfl <;> decide
    · have : c = '0' := by simpa using hc
      subst this
      decide
  · rcases hd with rfl | rfl <;> decide
  · exact digit_not_whiteSpace c (hdig c hc)

/-- Claim C15. Every string accepted by `validate.phone` has a length fixed by its lead (13
characters when it starts with `+254`, 10 when it starts with `0`) and contains no
whitespace; so inserting any non-empty run of whitespace before it, after it or inside it
gives a string that is rejected. -/
theorem phone_fixed_length_no_whitespace (s : String)
    (haccept : phone MCUCSYA_CONFIG s = true) :
    (((∃ tail, s.data = "+254".data ++ tail) ∧ s.length = 13) ∨
      ((∃ tail, s.data = "0".data ++ tail) ∧ s.length = 10)) ∧
    (∀ c ∈ s.data, isWhiteSpace c = false) ∧
    (∀ front back gap : List Char, s.data = front ++ back → gap ≠ [] →
      (∀ c ∈ gap, isWhiteSpace c = true) →
      phone MCUCSYA_CONFIG (String.mk (front ++ gap ++ back)) = false) := by
  refine ⟨?_, phone_no_whiteSpace s haccept, ?_⟩
  · obtain ⟨pre, d, rest, hpre, _, hlen, _, hs⟩ := (test_phonePattern_iff s).mp haccept
    rcases hpre with rfl | rfl
    · left
      refine ⟨⟨d :: rest, hs⟩, ?_⟩
      simp only [String.length, hs, List.length_append, List.length_cons, hlen]
      rfl
    · right
      refine ⟨⟨d :: rest, hs⟩, ?_⟩
      simp only [String.length, hs, List.length_append, List.length_cons, hlen]
      rfl
  · intro front back gap _ hgap hws
    cases hp : phone MCUCSYA_CONFIG (String.mk (front ++ gap ++ back)) with
    | false => rfl
    | true =>
      obtain ⟨c, hc⟩ := List.exists_mem_of_ne_nil gap hgap
      have h1 := phone_no_whiteSpace _ hp c (by simp [hc])
      rw [hws c hc] at h1
      cases h1

/-- Witness for claim C15: `0712345678` has 10 characters, and with a space after the lead
it is rejected. -/
theorem phone_fixed_length_no_whitespace_witness :
    "0712345678".length = 10 ∧ phone MCUCSYA_CONFIG "0 712345678" = false := by
  have h := phone_fixed_length_no_whitespace "0712345678" (by decide)
  exact ⟨by decide, h.2.2 "0".data "712345678".data " ".data (by decide) (by decide)
    (by decide)⟩

end MCUCSYA

namespace MCUCSYA
open MCUCSYAUtils.validate Regex

theorem matches_opt_lit_iff (a : Char) (s : List Char) :
    Matches (opt (lit a)) s ↔ s = [a] ∨ s = [] := by
  simp only [opt, matches_alt_iff, matches_lit_iff, matches_eps_iff]

theorem test_configJs_phonePattern_iff (s : String) :
    ConfigJs.phonePattern.test s = true ↔
      ∃ pre d rest, (pre = "+254" ∨ pre = "254" ∨ pre = "0") ∧ (d = '1' ∨ d = '7') ∧
        rest.length = 8 ∧ (∀ c ∈ rest, isAsciiDigit c = true) ∧
        s.data = pre.data ++ d :: rest := by
  rw [Regex.test, fullMatch_iff]
  simp only [ConfigJs.phonePattern, matches_cat_iff, matches_alt_iff, matches_lit_iff,
    matches_opt_lit_iff, matches_cls_iff, matches_rep_cls_iff, phoneLead_iff, digitClass_iff]
  constructor
  · rintro ⟨p, r₁, hs, hp, x, rest, rfl, ⟨d, rfl, hd⟩, hlen, hdig⟩
    rcases hp with ⟨a, r₂, rfl, ha, b, r₃, rfl, rfl, c, e, rfl, rfl, rfl⟩ | rfl
    · rcases ha with rfl | rfl
      · exact ⟨"+254", d, rest, Or.inl rfl, hd, hlen, hdig, hs⟩
      · exact ⟨"254", d, rest, Or.inr (Or.inl rfl), hd, hlen, hdig, hs⟩
    · exact ⟨"0", d, rest, Or.inr (Or.inr rfl), hd, hlen, hdig, hs⟩
  · rintro ⟨pre, d, rest, hpre, hd, hlen, hdig, hs⟩
    refine ⟨pre.data, d :: rest, hs, ?_, [d], rest, rfl, ⟨d, rfl, hd⟩, hlen, hdig⟩
    rcases hpre with rfl | rfl | rfl
    · exact Or.inl ⟨['+'], ['2', '5', '4'], rfl, Or.inl rfl, ['2'], ['5', '4'], rfl, rfl,
        ['5'], ['4'], rfl, rfl, rfl⟩
    · exact Or.inl ⟨[], ['2', '5', '4'], rfl, Or.inr rfl, ['2'], ['5', '4'], rfl, rfl,
        ['5'], ['4'], rfl, rfl, rfl⟩
    · exact Or.inr rfl

/-- Claim C16. The two copies of the phone pattern differ only by tolerance of a bare `254`
lead: every string accepted by the pattern of `utils.js` is accepted by the pattern of
`config.js`, and the strings accepted by `config.js` but not by `utils.js` are exactly those
made of `254`, then a digit 1 or 7, then 8 digits, such as `254712345678`. -/
theorem phone_patterns_differ_by_bare_254 :
    (∀ s : String, phone MCUCSYA_CONFIG s = true → phone ConfigJs.MCUCSYA_CONFIG s = true) ∧
    (∀ s : String,
      (phone ConfigJs.MCUCSYA_CONFIG s = true ∧ phone MCUCSYA_CONFIG s = false) ↔
        ∃ d rest, (d = '1' ∨ d = '7') ∧ rest.length = 8 ∧
          (∀ c ∈ rest, isAsciiDigit c = true) ∧ s.data = "254".data ++ d :: rest) ∧
    (phone ConfigJs.MCUCSYA_CONFIG "254712345678" = true ∧
      phone MCUCSYA_CONFIG "254712345678" = false) := by
  have hutils : ∀ s : String, phone MCUCSYA_CONFIG s = phonePattern.test s := fun _ => rfl
  have hconfig : ∀ s : String,
      phone ConfigJs.MCUCSYA_CONFIG s = ConfigJs.phonePattern.test s := fun _ => rfl
  refine ⟨?_, ?_, by decide, by decide⟩
  · intro s h
    rw [hutils, test_phonePattern_iff] at h
    rw [hconfig, test_configJs_phonePattern_iff]
    obtain ⟨pre, d, rest, hpre, hd, hlen, hdig, hs⟩ := h
    refine ⟨pre, d, rest, ?_, hd, hlen, hdig, hs⟩
    rcases hpre with rfl | rfl
    · exact Or.inl rfl
    · exact Or.inr (Or.inr rfl)
  · intro s
    rw [hutils, hconfig, test_configJs_phonePattern_iff, ← Bool.not_eq_true,
      test_phonePattern_iff]
    constructor
    · rintro ⟨⟨pre, d, rest, hpre, hd, hlen, hdig, hs⟩, hnot⟩
      rcases hpre with rfl | rfl | rfl
      · exact absurd ⟨"+254", d, rest, Or.inl rfl, hd, hlen, hdig, hs⟩ hnot
      · exact ⟨d, rest, hd, hlen, hdig, hs⟩
      · exact absurd ⟨"0", d, rest, Or.inr rfl, hd, hlen, hdig, hs⟩ hnot
    · rintro ⟨d, rest, hd, hlen, hdig, hs⟩
      refine ⟨⟨"254", d, rest, Or.inr (Or.inl rfl), hd, hlen, hdig, hs⟩, ?_⟩
      rintro ⟨pre, e, rest₂, hpre, _, _, _, hs₂⟩
      rw [hs] at hs₂
      rcases hpre with rfl | rfl
      · have := List.head_eq_of_cons_eq hs₂
        revert this
        decide
      · have := List.head_eq_of_cons_eq hs₂
        revert this
        decide

end MCUCSYA

namespace MCUCSYA
open MCUCSYAUtils.array

/-! ## `array.unique` -/

theorem foldl_setAdd_eq_append {α : Type} [DecidableEq α] (arr acc : List α) :
    ∃ added : List α, arr.foldl setAdd acc = acc ++ added ∧
      (∀ x, x ∈ added ↔ x ∈ arr ∧ x ∉ acc) ∧ added.Nodup ∧
      added.Pairwise (fun x y => arr.indexOf x < arr.indexOf y) := by
  induction arr generalizing acc with
  | nil => exact ⟨[], by simp⟩
  | cons a arr ih =>
    rw [List.foldl_cons]
    have shift : ∀ y, y ≠ a → (a :: arr).indexOf y = arr.indexOf y + 1 := by
      intro y hy
      rw [List.indexOf_cons]
      have : (a == y) = false := by simpa using fun h => hy h.symm
      simp [this]
    by_cases ha : a ∈ acc
    · obtain ⟨added, h1, h2, h3, h4⟩ := ih acc
      refine ⟨added, by simpa [setAdd, ha] using h1, ?_, h3, ?_⟩
      · intro x
        rw [h2 x]
        constructor
        · rintro ⟨hx, hn⟩; exact ⟨List.mem_cons_of_mem a hx, hn⟩
        · rintro ⟨hx, hn⟩
          rcases List.mem_cons.mp hx with rfl | hx
          · exact absurd ha hn
          · exact ⟨hx, hn⟩
      · refine h4.imp_of_mem ?_
        intro x y hx hy hlt
        have hxa : x ≠ a := fun h => ((h2 x).mp hx).2 (h ▸ ha)
        have hya : y ≠ a := fun h => ((h2 y).mp hy).2 (h ▸ ha)
        rw [shift x hxa, shift y hya]
        omega
    · obtain ⟨added, h1, h2, h3, h4⟩ := ih (acc ++ [a])
      have hna : ∀ x ∈ added, x ≠ a := by
        intro x hx h
        exact ((h2 x).mp hx).2 (by simp [h])
      refine ⟨a :: added, by simpa [setAdd, ha] using h1, ?_, ?_, ?_⟩
      · intro x
        simp only [List.mem_cons, h2 x, List.mem_append, List.not_mem_nil, or_false, not_or]
        constructor
        · rintro (rfl | ⟨hx, hn, _⟩)
          · exact ⟨Or.inl rfl, ha⟩
          · exact ⟨Or.inr hx, hn⟩
        · rintro ⟨hx | hx, hn⟩
          · exact Or.inl hx
          · by_cases hxa : x = a
            · exact Or.inl hxa
            · exact Or.inr ⟨hx, hn, hxa⟩
      · exact List.nodup_cons.mpr ⟨fun h => hna a h rfl, h3⟩
      · refine List.pairwise_cons.mpr ⟨?_, ?_⟩
        · intro y hy
          rw [shift y (hna y hy)]
          simp
        · refine h4.imp_of_mem ?_
          intro x y hx hy hlt
          rw [shift x (hna x hx), shift y (hna y hy)]
          omega

theorem foldl_setAdd_of_nodup {α : Type} [DecidableEq α] (l acc : List α)
    (h : (acc ++ l).Nodup) : l.foldl setAdd acc = acc ++ l := by
  induction l generalizing acc with
  | nil => simp
  | cons a l ih =>
    have ha : a ∉ acc := by
      intro hmem
      have := List.nodup_append.mp h
      exact this.2.2 hmem (List.mem_cons_self a l)
    rw [List.foldl_cons]
    simp only [setAdd, ha, if_false]
    rw [ih (acc ++ [a]) (by simpa using h)]
    simp

/-- Claim C17. `array.unique` removes duplicates: the result has no two equal elements,
contains exactly the elements that occur in the input, lists them in the order of their first
occurrences, and `unique` applied twice gives the same as applied once. -/
theorem unique_removes_duplicates {α : Type} [DecidableEq α] (arr : List α) :
    (unique arr).Nodup ∧
    (∀ x, x ∈ unique arr ↔ x ∈ arr) ∧
    (unique arr).Pairwise (fun x y => arr.indexOf x < arr.indexOf y) ∧
    unique (unique arr) = unique arr := by
  obtain ⟨added, h1, h2, h3, h4⟩ := foldl_setAdd_eq_append arr []
  have hu : unique arr = added := by simpa [unique, newSet] using h1
  refine ⟨hu ▸ h3, ?_, hu ▸ h4, ?_⟩
  · intro x
    rw [hu, h2 x]
    simp
  · rw [hu]
    have := foldl_setAdd_of_nodup added [] (by simpa using h3)
    simpa [unique, newSet] using this

end MCUCSYA

namespace MCUCSYA

/-! ## `storage` -/

/-- Claim C18 at its failing input.  However `utils.js` is loaded, the outer `this` has no
`_storage` property, so `storage.set` returns false and leaves the state as it was, and the
following `storage.get` returns the default value and not the stored one; the property
`_storage` of the `storage` object is never read or written. -/
theorem storage_set_fails_after_load :
    MCUCSYAUtils.storage.set (scriptState String) "members" "Jane"
      = (false, scriptState String) ∧
    MCUCSYAUtils.storage.get
      (MCUCSYAUtils.storage.set (scriptState String) "members" "Jane").2 "members" "none"
      = "none" ∧
    MCUCSYAUtils.storage.set (moduleState String) "members" "Jane"
      = (false, moduleState String) ∧
    MCUCSYAUtils.storage.get
      (MCUCSYAUtils.storage.set (moduleState String) "members" "Jane").2 "members" "none"
      = "none" ∧
    (∀ (state : StorageState String) (key value : String),
      (MCUCSYAUtils.storage.set state key value).2.ownStorage = state.ownStorage) := by
  refine ⟨by decide, by decide, by decide, by decide, ?_⟩
  intro state key value
  unfold MCUCSYAUtils.storage.set
  split <;> rfl

end MCUCSYA

namespace MCUCSYA
open MCUCSYAUtils.validate

/-! ## The keys of `errors` -/

theorem Errors.mem_keys_iff (e : Errors) (f : String) :
    f ∈ e.keys ↔ ∃ m, e.get f = some m := by
  induction e with
  | nil => simp [Errors.keys, Errors.get]
  | cons p rest ih =>
    obtain ⟨k, m⟩ := p
    by_cases hk : k = f
    · subst hk
      simp [Errors.keys, Errors.get]
    · have hk' : ¬ f = k := fun h => hk h.symm
      have ih' : f ∈ List.map Prod.fst rest ↔ ∃ m, Errors.get rest f = some m := ih
      simp only [Errors.keys, List.map_cons, List.mem_cons, hk', false_or, Errors.get, hk,
        if_false]
      exact ih'

theorem failsTypeCheck_iff (cfg : Config) (clock : Clock) (data : Record) (f : String) :
    failsTypeCheck cfg clock data f = true ↔
      f ∈ typedFields ∧
        ∃ s, data.get f = .str s ∧ s ≠ "" ∧ fieldValidator cfg clock f s = false := by
  constructor
  · intro h
    simp only [failsTypeCheck, Bool.and_eq_true, decide_eq_true_eq, Bool.not_eq_true'] at h
    obtain ⟨⟨hf, ht⟩, hv⟩ := h
    obtain ⟨s, hs, hne⟩ := (truthy_iff _).mp ht
    rw [hs] at hv
    exact ⟨hf, s, hs, hne, hv⟩
  · rintro ⟨hf, s, hs, hne, hv⟩
    exact failsTypeCheck_of_fails cfg clock data f s hf hs hne hv

/-- Claim C19, as worded, fails: a record whose own property `__proto__` is the empty string,
with `__proto__` required, has a blank required field, yet `errors` gets no key: the
assignment `errors["__proto__"] = message` goes to the setter inherited from
`Object.prototype`, which stores nothing. -/
theorem formData_proto_key_not_stored :
    "__proto__" ∈ ["__proto__"] ∧
    (Record.get [("__proto__", .str "")] "__proto__").absentOrBlank ∧
    "__proto__" ∉
      (formData MCUCSYA_CONFIG sampleClock [("__proto__", .str "")] ["__proto__"]).errors.keys ∧
    formData MCUCSYA_CONFIG sampleClock [("__proto__", .str "")] ["__proto__"] =
      { isValid := true, errors := [] } :=
  ⟨by decide, Or.inr (Or.inr ⟨"", by decide, by decide⟩), by decide, by decide⟩

/-- Claim C19, amended. The keys of `errors` returned by `validate.formData` are
characterised: a field name has an entry exactly when it is in `requiredFields` with an
absent or blank value, is not `__proto__`, and is either no property name of
`Object.prototype` or an own property of the record; or it is one of `email`, `phone`,
`firstName`, `lastName`, `dateOfBirth` and holds a non-empty string that fails its field
validator.  So no other field name, and no absent or empty field that is not required, gets
an entry. -/
theorem formData_error_keys_characterised (cfg : Config) (clock : Clock) (data : Record)
    (requiredFields : List String) (field : String) :
    (field ∈ (formData cfg clock data requiredFields).errors.keys ↔
      (field ∈ requiredFields ∧ (data.get field).absentOrBlank ∧ field ≠ "__proto__" ∧
        (field ∈ objectPrototypeNames → data.get field ≠ .undefined)) ∨
      (field ∈ typedFields ∧
        ∃ s, data.get field = .str s ∧ s ≠ "" ∧ fieldValidator cfg clock field s = false)) ∧
    (field ∉ requiredFields →
      (data.get field = .undefined ∨ data.get field = .null ∨ data.get field = .str "") →
      field ∉ (formData cfg clock data requiredFields).errors.keys) ∧
    (field ∉ requiredFields → field ∉ typedFields →
      field ∉ (formData cfg clock data requiredFields).errors.keys) := by
  have key : field ∈ (formData cfg clock data requiredFields).errors.keys ↔
      (field ∈ requiredFields ∧ (data.get field).absentOrBlank ∧ field ≠ "__proto__" ∧
        (field ∈ objectPrototypeNames → data.get field ≠ .undefined)) ∨
      (field ∈ typedFields ∧
        ∃ s, data.get field = .str s ∧ s ≠ "" ∧ fieldValidator cfg clock field s = false) := by
    rw [Errors.mem_keys_iff, formData_errors_get, ← failsTypeCheck_iff]
    have hreq := requiredRead_read_eq_false_iff data field
    by_cases ht : failsTypeCheck cfg clock data field = true
    · simp [ht]
    · by_cases hr : field ≠ "__proto__" ∧ field ∈ requiredFields ∧
          requiredRead (data.read field) = false
      · rw [if_neg ht, if_pos hr]
        have h2 := hreq.mp hr.2.2
        constructor
        · intro _
          exact Or.inl ⟨hr.2.1, h2.1, hr.1, h2.2⟩
        · intro _
          exact ⟨_, rfl⟩
      · rw [if_neg ht, if_neg hr]
        constructor
        · rintro ⟨m, hm⟩
          cases hm
        · rintro (⟨h1, h2, h3, h4⟩ | h)
          · exact absurd ⟨h3, h1, hreq.mpr ⟨h2, h4⟩⟩ hr
          · exact absurd h ht
  refine ⟨key, ?_, ?_⟩
  · intro hreq hval hmem
    rcases key.mp hmem with ⟨h, _⟩ | ⟨_, s, hs, hne, _⟩
    · exact hreq h
    · rcases hval with h | h | h
      · rw [h] at hs; cases hs
      · rw [h] at hs; cases hs
      · rw [h] at hs
        cases hs
        exact hne rfl
  · intro hreq htyped hmem
    rcases key.mp hmem with ⟨h, _⟩ | ⟨h, _⟩
    · exact hreq h
    · exact htyped h

/-- Witness for the amended claim C19: an optional `gender` that is absent gets no entry. -/
theorem formData_error_keys_characterised_witness :
    "gender" ∉ (formData MCUCSYA_CONFIG sampleClock [("email", .str "nope")]
      ["email"]).errors.keys :=
  (formData_error_keys_characterised MCUCSYA_CONFIG sampleClock [("email", .str "nope")]
    ["email"] "gender").2.1 (by decide) (Or.inl (by decide))

end MCUCSYA

namespace MCUCSYA
open MCUCSYAUtils.array

/-! ## `array.paginate` -/

theorem ceilDiv_spec (a b : Int) (hb : 0 < b) :
    (ceilDiv a b - 1) * b < a ∧ a ≤ ceilDiv a b * b := by
  have h1 := Int.ediv_add_emod (-a) b
  have h2 := Int.emod_nonneg (-a) (ne_of_gt hb)
  have h3 := Int.emod_lt_of_pos (-a) hb
  rw [ceilDiv, Int.fdiv_eq_ediv _ (le_of_lt hb)]
  constructor <;> nlinarith

theorem lt_ceilDiv_iff (a b p : Int) (hb : 0 < b) : p < ceilDiv a b ↔ p * b < a := by
  obtain ⟨h1, h2⟩ := ceilDiv_spec a b hb
  constructor
  · intro h
    have : p * b ≤ (ceilDiv a b - 1) * b :=
      Int.mul_le_mul_of_nonneg_right (by omega) (le_of_lt hb)
    omega
  · intro h
    by_contra hn
    have : ceilDiv a b * b ≤ p * b :=
      Int.mul_le_mul_of_nonneg_right (by omega) (le_of_lt hb)
    omega

theorem jsSlice_of_nonneg {α : Type} (arr : List α) (a n : Nat) :
    jsSlice arr (a : Int) ((a : Int) + n) = (arr.drop a).take n := by
  have ha : ¬ (a : Int) < 0 := by omega
  have hb : ¬ ((a : Int) + n) < 0 := by omega
  simp only [jsSlice, if_neg ha, if_neg hb]
  by_cases hlen : a ≤ arr.length
  · have hk : (min (a : Int) (arr.length : Int)).toNat = a := by omega
    rw [hk]
    rw [List.take_eq_take]
    simp only [List.length_drop]
    omega
  · have hk : (min (a : Int) (arr.length : Int)).toNat = arr.length := by omega
    rw [hk, List.drop_eq_nil_of_le (le_refl _), List.drop_eq_nil_of_le (by omega)]
    simp

theorem paginate_data {α : Type} (arr : List α) (i n : Nat) :
    (paginate arr ((i : Int) + 1) n).data = (arr.drop (i * n)).take n := by
  have := jsSlice_of_nonneg arr (i * n) n
  simp only [paginate]
  rw [← this]
  congr 1 <;> push_cast <;> ring

theorem flatMap_pages {α : Type} (arr : List α) (n k : Nat) :
    (List.range k).flatMap (fun i => (arr.drop (i * n)).take n) = arr.take (k * n) := by
  induction k with
  | zero => simp
  | succ k ih =>
    rw [List.range_succ, List.flatMap_append, ih, List.flatMap_singleton, Nat.succ_mul,
      List.take_add]

theorem ceilDiv_nonneg (a b : Int) (ha : 0 ≤ a) (hb : 0 < b) : 0 ≤ ceilDiv a b := by
  by_contra hn
  have h1 := (ceilDiv_spec a b hb).2
  have : ceilDiv a b * b ≤ (-1) * b :=
    Int.mul_le_mul_of_nonneg_right (by omega) (le_of_lt hb)
  omega

/-- Claim C20. `array.paginate` partitions the array: for every array and every
`itemsPerPage >= 1`, `totalPages` is the ceiling of `arr.length / itemsPerPage` (the least
integer whose product with `itemsPerPage` reaches the length), each page from 1 to
`totalPages` has between 1 and `itemsPerPage` items, the data of pages 1 to `totalPages`
concatenated in order is the array, and `hasNext` is true exactly when the page number is
below `totalPages`. -/
theorem paginate_partitions {α : Type} (arr : List α) (itemsPerPage : Int)
    (hsize : 1 ≤ itemsPerPage) :
    (∀ page : Int,
      ((paginate arr page itemsPerPage).totalPages - 1) * itemsPerPage < arr.length ∧
      (arr.length : Int) ≤ (paginate arr page itemsPerPage).totalPages * itemsPerPage) ∧
    (∀ page : Int, 1 ≤ page → page ≤ (paginate arr page itemsPerPage).totalPages →
      1 ≤ (paginate arr page itemsPerPage).data.length ∧
      ((paginate arr page itemsPerPage).data.length : Int) ≤ itemsPerPage) ∧
    (List.range (paginate arr 1 itemsPerPage).totalPages.toNat).flatMap
        (fun i => (paginate arr ((i : Int) + 1) itemsPerPage).data) = arr ∧
    (∀ page : Int,
      (paginate arr page itemsPerPage).hasNext = true ↔
        page < (paginate arr page itemsPerPage).totalPages) := by
  have hpos : 0 < itemsPerPage := by omega
  have htotal : ∀ page : Int,
      (paginate arr page itemsPerPage).totalPages = ceilDiv arr.length itemsPerPage :=
    fun _ => rfl
  have hspec := ceilDiv_spec arr.length itemsPerPage hpos
  obtain ⟨n, rfl⟩ := Int.eq_ofNat_of_zero_le (le_of_lt hpos)
  refine ⟨fun page => by rw [htotal]; exact hspec, ?_, ?_, ?_⟩
  · intro page h1 h2
    rw [htotal] at h2
    obtain ⟨i, hi⟩ := Int.eq_ofNat_of_zero_le (show 0 ≤ page - 1 by omega)
    have hpage : page = (i : Int) + 1 := by omega
    subst hpage
    have hlt : (i : Int) * n < arr.length :=
      (lt_ceilDiv_iff arr.length n i hpos).mp (by omega)
    have hlt' : i * n < arr.length := by exact_mod_cast hlt
    rw [paginate_data, List.length_take, List.length_drop]
    have hn : 1 ≤ n := by omega
    constructor
    · omega
    · have : min n (arr.length - i * n) ≤ n := Nat.min_le_left _ _
      exact_mod_cast this
  · rw [htotal]
    simp only [paginate_data, flatMap_pages]
    apply List.take_of_length_le
    have h0 := ceilDiv_nonneg arr.length n (by omega) hpos
    obtain ⟨t, ht⟩ := Int.eq_ofNat_of_zero_le h0
    rw [ht] at hspec ⊢
    have := hspec.2
    simp only [Int.toNat_ofNat]
    exact_mod_cast this
  · intro page
    rw [htotal, lt_ceilDiv_iff arr.length n page hpos]
    simp only [paginate, decide_eq_true_eq]
    constructor <;> intro h <;> nlinarith

/-- Witness for claim C20: five items in pages of two make three pages, the last of them
with one item. -/
theorem paginate_partitions_witness :
    (paginate [10, 20, 30, 40, 50] 3 2).data = [50] ∧
    (paginate [10, 20, 30, 40, 50] 3 2).totalPages = 3 ∧
    (List.range (paginate [10, 20, 30, 40, 50] 1 2).totalPages.toNat).flatMap
        (fun i => (paginate [10, 20, 30, 40, 50] ((i : Int) + 1) 2).data)
      = [10, 20, 30, 40, 50] :=
  ⟨by decide, by decide, (paginate_partitions [10, 20, 30, 40, 50] 2 (by decide)).2.2.1⟩

end MCUCSYA

namespace MCUCSYA

/-! ## Character classes of `slugify` -/

theorem not_whiteSpace_of_val (c : Char) (h1 : 33 ≤ c.val.toNat) (h2 : c.val.toNat ≤ 159) :
    isWhiteSpace c = false := by
  have ne : ∀ k : UInt32, (k.toNat < 33 ∨ 159 < k.toNat) → (c.val == k) = false := by
    intro k hk
    rw [beq_eq_false_iff_ne]
    intro hck
    rw [hck] at h1 h2
    omega
  have hr : (decide (0x2000 ≤ c.val) && decide (c.val ≤ 0x200A)) = false := by
    have : ¬ (0x2000 : UInt32) ≤ c.val := by
      intro hle
      have hle' : (0x2000 : UInt32).toNat ≤ c.val.toNat := hle
      have : (0x2000 : UInt32).toNat = 8192 := by decide
      omega
    simp [this]
  simp only [isWhiteSpace, hr, Bool.or_false, Bool.false_or,
    ne 0x09 (by decide), ne 0x0A (by decide), ne 0x0B (by decide), ne 0x0C (by decide),
    ne 0x0D (by decide), ne 0x20 (by decide), ne 0xA0 (by decide), ne 0x1680 (by decide),
    ne 0x2028 (by decide), ne 0x2029 (by decide), ne 0x202F (by decide), ne 0x205F (by decide),
    ne 0x3000 (by decide), ne 0xFEFF (by decide)]

theorem asciiLower_val (c : Char) (h : isAsciiLower c = true) :
    97 ≤ c.val.toNat ∧ c.val.toNat ≤ 122 := by
  simp only [isAsciiLower, Bool.and_eq_true, decide_eq_true_eq] at h
  exact ⟨h.1, h.2⟩

theorem asciiUpper_val (c : Char) (h : isAsciiUpper c = true) :
    65 ≤ c.val.toNat ∧ c.val.toNat ≤ 90 := by
  simp only [isAsciiUpper, Bool.and_eq_true, decide_eq_true_eq] at h
  exact ⟨h.1, h.2⟩

theorem asciiDigit_val (c : Char) (h : isAsciiDigit c = true) :
    48 ≤ c.val.toNat ∧ c.val.toNat ≤ 57 := by
  simp only [isAsciiDigit, Bool.and_eq_true, decide_eq_true_eq] at h
  exact ⟨h.1, h.2⟩

theorem slugChar_val (c : Char) (h : isSlugChar c = true) :
    (97 ≤ c.val.toNat ∧ c.val.toNat ≤ 122) ∨ (48 ≤ c.val.toNat ∧ c.val.toNat ≤ 57) ∨ c = '-' := by
  simp only [isSlugChar, Bool.or_eq_true, beq_iff_eq] at h
  rcases h with (h | h) | h
  · exact Or.inl (asciiLower_val c h)
  · exact Or.inr (Or.inl (asciiDigit_val c h))
  · exact Or.inr (Or.inr h)

theorem slugChar_not_whiteSpace (c : Char) (h : isSlugChar c = true) :
    isWhiteSpace c = false := by
  rcases slugChar_val c h with h | h | rfl
  · exact not_whiteSpace_of_val c (by omega) (by omega)
  · exact not_whiteSpace_of_val c (by omega) (by omega)
  · decide

theorem isSlugJunk_eq (c : Char) :
    isSlugJunk c =
      !(isAsciiLower c || isAsciiUpper c || isAsciiDigit c || c == '_' || isWhiteSpace c ||
        c == '-') := by
  simp [isSlugJunk, wordItems, Regex.classTest, ClassItem.test, isAsciiLower, isAsciiUpper,
    Bool.or_assoc]

theorem isSlugSeparator_eq (c : Char) :
    isSlugSeparator c = (isWhiteSpace c || c == '_' || c == '-') := by
  simp [isSlugSeparator, Regex.classTest, ClassItem.test, Bool.or_assoc]

theorem slugChar_not_junk (c : Char) (h : isSlugChar c = true) : isSlugJunk c = false := by
  rw [isSlugJunk_eq]
  simp only [isSlugChar, Bool.or_eq_true, beq_iff_eq] at h
  rcases h with (h | h) | h <;> simp [h]

theorem slugChar_separator_iff (c : Char) (h : isSlugChar c = true) :
    isSlugSeparator c = true ↔ c = '-' := by
  rw [isSlugSeparator_eq, slugChar_not_whiteSpace c h]
  simp only [Bool.false_or, Bool.or_eq_true, beq_iff_eq]
  constructor
  · rintro (rfl | h')
    · rcases slugChar_val '_' h with h | h | h
      · revert h; decide
      · revert h; decide
      · revert h; decide
    · exact h'
  · exact fun h' => Or.inr h'

theorem kept_not_upper (c : Char) (hkeep : isSlugJunk c = false) (hup : isAsciiUpper c = false)
    (hsep : isSlugSeparator c = false) : isSlugChar c = true ∧ c ≠ '-' ∧ c ≠ '_' := by
  rw [isSlugJunk_eq] at hkeep
  rw [isSlugSeparator_eq] at hsep
  simp only [Bool.or_eq_false_iff, beq_eq_false_iff_ne] at hsep
  obtain ⟨⟨hws, hus⟩, hhy⟩ := hsep
  have hus' : (c == '_') = false := by simpa using hus
  have hhy' : (c == '-') = false := by simpa using hhy
  simp only [hup, hws, hus', hhy', Bool.or_false, Bool.not_eq_false'] at hkeep
  refine ⟨?_, hhy, hus⟩
  simp only [isSlugChar, Bool.or_eq_true]
  left
  simpa using hkeep

end MCUCSYA

namespace MCUCSYA

/-! ## The replacement steps of `slugify` -/

theorem dropWhile_eq_self_of_head (p : Char → Bool) (l : List Char)
    (h : ∀ c ∈ l.head?, p c = false) : l.dropWhile p = l := by
  cases l with
  | nil => rfl
  | cons c cs =>
    have hc : p c = false := h c (by simp)
    simp [List.dropWhile_cons, hc]

theorem rdropWhile_eq_self_of_last (p : Char → Bool) (l : List Char)
    (h : ∀ c ∈ l.getLast?, p c = false) : (l.reverse.dropWhile p).reverse = l := by
  rw [dropWhile_eq_self_of_head p l.reverse (by simpa [List.head?_reverse] using h)]
  exact List.reverse_reverse l

theorem replaceRunsFrom_spec (p : Char → Bool) (hp : p '-' = true) (flag : Bool)
    (s : List Char) :
    (∀ c ∈ replaceRunsFrom p ['-'] flag s, c = '-' ∨ (c ∈ s ∧ p c = false)) ∧
    List.Chain' (fun a b => ¬ (a = '-' ∧ b = '-')) (replaceRunsFrom p ['-'] flag s) ∧
    (flag = true → ∀ c ∈ (replaceRunsFrom p ['-'] flag s).head?, c ≠ '-') := by
  induction s generalizing flag with
  | nil => simp [replaceRunsFrom]
  | cons c cs ih =>
    by_cases hc : p c = true
    · cases flag with
      | true =>
        obtain ⟨h1, h2, h3⟩ := ih true
        simp only [replaceRunsFrom, hc, if_true]
        refine ⟨?_, h2, fun _ => h3 rfl⟩
        intro d hd
        rcases h1 d hd with h | ⟨h, h'⟩
        · exact Or.inl h
        · exact Or.inr ⟨List.mem_cons_of_mem c h, h'⟩
      | false =>
        obtain ⟨h1, h2, h3⟩ := ih true
        simp only [replaceRunsFrom, hc, if_true, Bool.false_eq_true, if_false,
          List.singleton_append]
        refine ⟨?_, ?_, ?_⟩
        · intro d hd
          rcases List.mem_cons.mp hd with h | h
          · exact Or.inl h
          · rcases h1 d h with h | ⟨h, h'⟩
            · exact Or.inl h
            · exact Or.inr ⟨List.mem_cons_of_mem c h, h'⟩
        · rw [List.chain'_cons']
          exact ⟨fun y hy hh => h3 rfl y hy hh.2, h2⟩
        · intro h
          cases h
    · have hc' : p c = false := by simpa using hc
      have hne : c ≠ '-' := by
        rintro rfl
        rw [hp] at hc'
        cases hc'
      obtain ⟨h1, h2, _⟩ := ih false
      simp only [replaceRunsFrom, hc', Bool.false_eq_true, if_false]
      refine ⟨?_, ?_, ?_⟩
      · intro d hd
        rcases List.mem_cons.mp hd with h | h
        · exact Or.inr ⟨by rw [h]; exact List.mem_cons_self c cs, by rw [h]; exact hc'⟩
        · rcases h1 d h with h | ⟨h, h'⟩
          · exact Or.inl h
          · exact Or.inr ⟨List.mem_cons_of_mem c h, h'⟩
      · rw [List.chain'_cons']
        exact ⟨fun y _ hh => hne hh.1, h2⟩
      · intro _ d hd
        simp only [List.head?_cons, Option.mem_def, Option.some.injEq] at hd
        rw [← hd]
        exact hne

theorem replaceRunsFrom_eq_self (p : Char → Bool) (flag : Bool) (s : List Char)
    (hall : ∀ c ∈ s, (p c = true ↔ c = '-'))
    (hchain : List.Chain' (fun a b => ¬ (a = '-' ∧ b = '-')) s)
    (hhead : flag = true → ∀ c ∈ s.head?, c ≠ '-') :
    replaceRunsFrom p ['-'] flag s = s := by
  induction s generalizing flag with
  | nil => rfl
  | cons c cs ih =>
    have hcs : ∀ d ∈ cs, (p d = true ↔ d = '-') :=
      fun d hd => hall d (List.mem_cons_of_mem c hd)
    rw [List.chain'_cons'] at hchain
    by_cases hc : c = '-'
    · have hp : p c = true := (hall c (List.mem_cons_self c cs)).mpr hc
      have hflag : flag = false := by
        cases flag with
        | false => rfl
        | true => exact absurd hc (hhead rfl c (by simp))
      subst hflag
      simp only [replaceRunsFrom, hp, if_true, Bool.false_eq_true, if_false,
        List.singleton_append]
      rw [ih true hcs hchain.2 (fun _ d hd hd' => hchain.1 d hd ⟨hc, hd'⟩), hc]
    · have hp : p c = false := by
        cases h : p c with
        | false => rfl
        | true => exact absurd ((hall c (List.mem_cons_self c cs)).mp h) hc
      simp only [replaceRunsFrom, hp, Bool.false_eq_true, if_false]
      rw [ih false hcs hchain.2 (fun h => by cases h)]

theorem rdropWhile_append_rest (p : Char → Bool) (l : List Char) :
    ∃ rest, List.rdropWhile p l ++ rest = l :=
  List.rdropWhile_prefix p l

theorem rdropWhile_subset (p : Char → Bool) (l : List Char) :
    ∀ c ∈ List.rdropWhile p l, c ∈ l := by
  intro c hc
  obtain ⟨rest, h⟩ := rdropWhile_append_rest p l
  rw [← h]
  exact List.mem_append_left rest hc

theorem stripHyphens_eq (s : List Char) :
    stripHyphens s =
      List.rdropWhile (fun c => c == '-') (List.dropWhile (fun c => c == '-') s) := rfl

theorem stripHyphens_subset (s : List Char) : ∀ c ∈ stripHyphens s, c ∈ s := by
  intro c hc
  rw [stripHyphens_eq] at hc
  exact (List.dropWhile_suffix _).subset (rdropWhile_subset _ _ c hc)

theorem stripHyphens_chain (s : List Char)
    (h : List.Chain' (fun a b => ¬ (a = '-' ∧ b = '-')) s) :
    List.Chain' (fun a b => ¬ (a = '-' ∧ b = '-')) (stripHyphens s) := by
  rw [stripHyphens_eq]
  have h1 := h.suffix (List.dropWhile_suffix (fun c => c == '-'))
  obtain ⟨rest, hrest⟩ := rdropWhile_append_rest (fun c => c == '-')
    (List.dropWhile (fun c => c == '-') s)
  rw [← hrest] at h1
  exact (List.chain'_append.mp h1).1

theorem stripHyphens_head (s : List Char) : ∀ c ∈ (stripHyphens s).head?, c ≠ '-' := by
  intro c hc
  rw [stripHyphens_eq] at hc
  obtain ⟨t, ht⟩ := rdropWhile_append_rest (fun c => c == '-')
    (List.dropWhile (fun c => c == '-') s)
  have hnot := List.head?_dropWhile_not (fun c => c == '-') s
  cases hz : List.rdropWhile (fun c => c == '-') (List.dropWhile (fun c => c == '-') s) with
  | nil => rw [hz] at hc; cases hc
  | cons d ds =>
    rw [hz] at hc ht
    simp only [List.head?_cons, Option.mem_def, Option.some.injEq] at hc
    rw [← ht] at hnot
    simp only [List.cons_append, List.head?_cons, beq_eq_false_iff_ne] at hnot
    rw [← hc]
    exact hnot

theorem stripHyphens_last (s : List Char) : ∀ c ∈ (stripHyphens s).getLast?, c ≠ '-' := by
  intro c hc
  have hnot := List.head?_dropWhile_not (fun c => c == '-')
    (List.dropWhile (fun c => c == '-') s).reverse
  simp only [stripHyphens, List.getLast?_reverse] at hc
  simp only [Option.mem_def] at hc
  rw [hc] at hnot
  simpa using hnot

theorem stripHyphens_eq_self (s : List Char) (hhead : ∀ c ∈ s.head?, c ≠ '-')
    (hlast : ∀ c ∈ s.getLast?, c ≠ '-') : stripHyphens s = s := by
  unfold stripHyphens
  rw [dropWhile_eq_self_of_head _ s (fun c hc => by simpa using hhead c hc)]
  exact rdropWhile_eq_self_of_last _ s (fun c hc => by simpa using hlast c hc)

theorem jsTrim_eq_self (s : String) (h : ∀ c ∈ s.data, isWhiteSpace c = false) :
    jsTrim s = s := by
  have h1 : trimStart s.data = s.data :=
    dropWhile_eq_self_of_head _ _ (fun c hc => h c (List.mem_of_mem_head? hc))
  have h2 : trimEnd s.data = s.data :=
    rdropWhile_eq_self_of_last _ _ (fun c hc => h c (List.mem_of_mem_getLast? hc))
  rw [jsTrim, h1, h2]

end MCUCSYA

namespace MCUCSYA
open MCUCSYAUtils.string

/-! ## `string.slugify` -/

theorem jsTrim_subset (s : String) : ∀ c ∈ (jsTrim s).data, c ∈ s.data := by
  intro c hc
  have h : (jsTrim s).data = List.rdropWhile isWhiteSpace (List.dropWhile isWhiteSpace s.data) :=
    rfl
  rw [h] at hc
  exact (List.dropWhile_suffix _).subset (rdropWhile_subset _ _ c hc)

theorem slugify_data (toLowerCase : String → String) (s : String) (hs : s ≠ "") :
    (slugify toLowerCase s).data =
      stripHyphens (replaceRuns isSlugSeparator ['-']
        (removeAll isSlugJunk (jsTrim (toLowerCase s)).data)) := by
  simp [slugify, hs]

theorem slugify_wellformed (toLowerCase : String → String)
    (hlower : ∀ (s : String) (c : Char), c ∈ (toLowerCase s).data → isAsciiUpper c = false)
    (s : String) :
    (∀ c ∈ (slugify toLowerCase s).data, isSlugChar c = true) ∧
    List.Chain' (fun a b => ¬ (a = '-' ∧ b = '-')) (slugify toLowerCase s).data ∧
    (∀ c ∈ (slugify toLowerCase s).data.head?, c ≠ '-') ∧
    (∀ c ∈ (slugify toLowerCase s).data.getLast?, c ≠ '-') := by
  by_cases hs : s = ""
  · subst hs
    have : (slugify toLowerCase "").data = [] := rfl
    rw [this]
    simp
  · rw [slugify_data toLowerCase s hs]
    have hsep : isSlugSeparator '-' = true := by decide
    obtain ⟨h1, h2, _⟩ := replaceRunsFrom_spec isSlugSeparator hsep false
      (removeAll isSlugJunk (jsTrim (toLowerCase s)).data)
    refine ⟨?_, stripHyphens_chain _ h2, stripHyphens_head _, stripHyphens_last _⟩
    intro c hc
    rcases h1 c (stripHyphens_subset _ c hc) with rfl | ⟨hmem, hns⟩
    · decide
    · simp only [removeAll, List.mem_filter, Bool.not_eq_true'] at hmem
      exact (kept_not_upper c hmem.2 (hlower s c (jsTrim_subset _ c hmem.1)) hns).1

theorem slugify_eq_self_of_slug (toLowerCase : String → String)
    (hfixed : ∀ s : String, (∀ c ∈ s.data, isSlugChar c = true) → toLowerCase s = s)
    (t : String) (hchars : ∀ c ∈ t.data, isSlugChar c = true)
    (hchain : List.Chain' (fun a b => ¬ (a = '-' ∧ b = '-')) t.data)
    (hhead : ∀ c ∈ t.data.head?, c ≠ '-') (hlast : ∀ c ∈ t.data.getLast?, c ≠ '-') :
    slugify toLowerCase t = t := by
  by_cases ht : t = ""
  · subst ht
    rfl
  · have hdata := slugify_data toLowerCase t ht
    rw [hfixed t hchars,
      jsTrim_eq_self t (fun c hc => slugChar_not_whiteSpace c (hchars c hc))] at hdata
    have hfilter : removeAll isSlugJunk t.data = t.data := by
      rw [removeAll, List.filter_eq_self]
      intro c hc
      simp [slugChar_not_junk c (hchars c hc)]
    rw [hfilter, replaceRuns,
      replaceRunsFrom_eq_self isSlugSeparator false t.data
        (fun c hc => slugChar_separator_iff c (hchars c hc)) hchain (fun h => by cases h),
      stripHyphens_eq_self t.data hhead hlast] at hdata
    exact String.ext hdata

/-- Claim C21. For every string, `string.slugify` returns a string made only of lowercase
ASCII letters, digits and hyphens, that does not start or end with a hyphen, has no two
consecutive hyphens and no underscore; and `slugify` applied to its own result returns it
unchanged.  The method `toLowerCase` is any function whose results contain no letter `A` to
`Z` and which leaves strings of lowercase ASCII letters, digits and hyphens as they are. -/
theorem slugify_shape_and_idempotent (toLowerCase : String → String)
    (hlower : ∀ (s : String) (c : Char), c ∈ (toLowerCase s).data → isAsciiUpper c = false)
    (hfixed : ∀ s : String, (∀ c ∈ s.data, isSlugChar c = true) → toLowerCase s = s)
    (s : String) :
    (∀ c ∈ (slugify toLowerCase s).data,
      isAsciiLower c = true ∨ isAsciiDigit c = true ∨ c = '-') ∧
    (slugify toLowerCase s).data.head? ≠ some '-' ∧
    (slugify toLowerCase s).data.getLast? ≠ some '-' ∧
    (∀ front back : List Char,
      (slugify toLowerCase s).data ≠ front ++ '-' :: '-' :: back) ∧
    '_' ∉ (slugify toLowerCase s).data ∧
    slugify toLowerCase (slugify toLowerCase s) = slugify toLowerCase s := by
  obtain ⟨h1, h2, h3, h4⟩ := slugify_wellformed toLowerCase hlower s
  refine ⟨?_, ?_, ?_, ?_, ?_, slugify_eq_self_of_slug toLowerCase hfixed _ h1 h2 h3 h4⟩
  · intro c hc
    have := h1 c hc
    simp only [isSlugChar, Bool.or_eq_true, beq_iff_eq] at this
    tauto
  · intro h
    exact h3 '-' (by rw [h]; rfl) rfl
  · intro h
    exact h4 '-' (by rw [h]; rfl) rfl
  · intro front back h
    rw [h] at h2
    have h5 := h2.suffix (List.suffix_append front ('-' :: '-' :: back))
    rw [List.chain'_cons'] at h5
    exact h5.1 '-' (by simp) ⟨rfl, rfl⟩
  · intro h
    have := h1 '_' h
    revert this
    decide

theorem lowered_not_upper :
    ∀ n, n < 26 → isAsciiUpper (Char.ofNat (n + 97)) = false := by
  decide

theorem asciiLowerCase_no_upper (s : String) (c : Char)
    (h : c ∈ (asciiLowerCase s).data) : isAsciiUpper c = false := by
  simp only [asciiLowerCase, List.mem_map] at h
  obtain ⟨d, _, hd⟩ := h
  by_cases hu : isAsciiUpper d = true
  · rw [if_pos hu] at hd
    obtain ⟨h1, h2⟩ := asciiUpper_val d hu
    have hv : d.toNat = d.val.toNat := rfl
    have hn : d.toNat + 32 = (d.toNat - 65) + 97 := by omega
    rw [← hd, hn]
    exact lowered_not_upper (d.toNat - 65) (by omega)
  · rw [if_neg hu] at hd
    rw [← hd]
    simpa using hu

theorem slugChar_not_upper (c : Char) (h : isSlugChar c = true) : isAsciiUpper c = false := by
  cases hu : isAsciiUpper c with
  | false => rfl
  | true =>
    obtain ⟨h1, h2⟩ := asciiUpper_val c hu
    rcases slugChar_val c h with h' | h' | rfl
    · omega
    · omega
    · revert hu; decide

theorem asciiLowerCase_fixed (s : String) (h : ∀ c ∈ s.data, isSlugChar c = true) :
    asciiLowerCase s = s := by
  apply String.ext
  simp only [asciiLowerCase]
  conv_rhs => rw [← List.map_id s.data]
  apply List.map_congr_left
  intro c hc
  simp [slugChar_not_upper c (h c hc)]

/-- Witness for claim C21: with the ASCII case mapping, a title with punctuation, runs of
spaces, underscores and hyphens becomes a slug, and slugifying the slug changes nothing. -/
theorem slugify_shape_and_idempotent_witness :
    slugify asciiLowerCase "  Hello,  World_-- Foo!  " = "hello-world-foo" ∧
    slugify asciiLowerCase (slugify asciiLowerCase "  Hello,  World_-- Foo!  ") =
      slugify asciiLowerCase "  Hello,  World_-- Foo!  " :=
  ⟨by decide,
    (slugify_shape_and_idempotent asciiLowerCase asciiLowerCase_no_upper asciiLowerCase_fixed
      "  Hello,  World_-- Foo!  ").2.2.2.2.2⟩

end MCUCSYA
